import Mathlib

set_option autoImplicit false
set_option maxRecDepth 1000000
set_option maxHeartbeats 2000000

/-
  Verification development for the minidb storage kernel.

  Shallow embedding of:
  - pkg/storage/page/layout.go   (B+ tree node layout and slot operations)
  - pkg/storage/index/bptree.go  (B+ tree operations over the buffer pool)
  - the tree iterator (TreeIterator)
  - the buffer pool manager and LRU replacer (frame-level model)
  - pkg/storage/disk/disk_manager.go (page id allocation)

  Modelling conventions:
  - A node is modelled as a tagged view (as recommended by the design notes):
    a structure holding the header fields plus a list of (key, value) slots
    for the leaf view and a list of (key, child id) slots for the internal
    view.  The slot count of the source is the length of the active list.
    Bytes of slots at positions at or beyond the count (residue left behind
    by shifts and splits) are not modelled; a value write of fewer than 128
    bytes is modelled as writing the zero-padded value, which coincides with
    the source whenever the written-over region was zero or held the same
    bytes.  All concrete evaluations below use a fixed one-byte value, for
    which the two coincide exactly.
  - Machine integers are modelled as Int (keys, signed ids) and Nat
    (counts, unsigned ids); no value in any scenario below approaches
    the 32- or 64-bit overflow boundary.
  - In the tree-level model the buffer pool and the disk are fused into one
    page store (an association list page id to node) plus a pin-count table,
    as if the pool had enough frames for the whole working set; fetch and
    unpin maintain pin counts exactly as the source does, and DeletePage
    follows the source (it refuses to delete a pinned page).  Eviction and
    read failures are modelled separately in the frame-level pool model.
  - Upward recursion (InsertIntoParent, coalesceOrRedistribute) and the
    descent loop are given explicit fuel; the source loops forever only on
    corrupt cyclic states, and all theorems below supply sufficient fuel.
-/

namespace MiniDB

namespace Page

/-- Constants from layout.go. -/
def PageSize : Nat := 4096
def SizeOfVal : Nat := 128
def MaxDegree : Nat := 29
def KindInternal : Nat := 1
def KindLeaf : Nat := 2
def InvalidPageID : Int := -1

/-- The logical view of a B+ tree page: header fields of the 24-byte header
plus the slot area, as two typed views selected by pageType. -/
structure BPlusTreePage where
  pageID : Nat
  parentID : Nat
  pageType : Nat
  nextPageID : Nat
  leafEntries : List (Int × List Nat)
  childEntries : List (Int × Nat)
deriving DecidableEq

/-- A page as produced by Page.Clear: all bytes zero. -/
def zeroPage : BPlusTreePage :=
  { pageID := 0, parentID := 0, pageType := 0, nextPageID := 0
    leafEntries := [], childEntries := [] }

def BPlusTreePage.IsLeaf (p : BPlusTreePage) : Bool :=
  p.pageType == KindLeaf

/-- GetCount: the number of occupied slots. -/
def BPlusTreePage.GetCount (p : BPlusTreePage) : Nat :=
  if p.IsLeaf then p.leafEntries.length else p.childEntries.length

/-- IsFull from layout.go: count at least MaxDegree - 1. -/
def BPlusTreePage.IsFull (p : BPlusTreePage) : Bool :=
  MaxDegree - 1 ≤ p.GetCount

/-- MinDegree from layout.go: MaxDegree/2 for leaves, (MaxDegree+1)/2 for
internal nodes. -/
def BPlusTreePage.MinDegree (p : BPlusTreePage) : Nat :=
  if p.IsLeaf then MaxDegree / 2 else (MaxDegree + 1) / 2

/-- The effect of SetValue on a fresh (zeroed) slot: the value is written
into a 128-byte region, so it is truncated to 128 bytes and zero-padded. -/
def padVal (v : List Nat) : List Nat :=
  v.take SizeOfVal ++ List.replicate (SizeOfVal - v.length) 0

/-- bytes.TrimRight(v, zero byte): drop trailing zero bytes. -/
def trimRightZeros (v : List Nat) : List Nat :=
  (v.reverse.dropWhile (· == 0)).reverse

/-- Reading the key of slot 0; on an empty freshly initialized node the
slot area is zeroed, so the read yields 0. -/
def firstKey {α : Type} : List (Int × α) → Int
  | [] => 0
  | e :: _ => e.1

/-- GetKey(0) on a page, dispatching on the view like getKeyOffset does. -/
def BPlusTreePage.GetKey0 (p : BPlusTreePage) : Int :=
  if p.IsLeaf then firstKey p.leafEntries else firstKey p.childEntries

/-- InsertLeaf from layout.go: scan slots in order; an equal key stops the
scan with result false (nothing written); the first larger key is the
insertion point; otherwise append at the end.  Returns the success flag and
the updated slot list. -/
def InsertLeaf (key : Int) (val : List Nat) :
    List (Int × List Nat) → Bool × List (Int × List Nat)
  | [] => (true, [(key, padVal val)])
  | (k, v) :: rest =>
    if k = key then (false, (k, v) :: rest)
    else if k > key then (true, (key, padVal val) :: (k, v) :: rest)
    else
      let r := InsertLeaf key val rest
      (r.1, (k, v) :: r.2)

/-- MoveHalfTo from layout.go: the upper count - count/2 slots move to the
(empty) recipient; the donor keeps the first count/2. -/
def MoveHalfTo (entries : List (Int × List Nat)) :
    List (Int × List Nat) × List (Int × List Nat) :=
  (entries.take (entries.length / 2), entries.drop (entries.length / 2))

/-- Remove from layout.go, slot shift at a given index; an out-of-range
index leaves the slots unchanged (the source guards index ≥ count). -/
def removeAt {α : Type} : Nat → List α → List α
  | _, [] => []
  | 0, _ :: rest => rest
  | n + 1, x :: rest => x :: removeAt n rest

/-- The index scan the tree performs before layout.go Remove: position of
the first slot holding the key. -/
def findKeyIdx (key : Int) : List (Int × List Nat) → Option Nat
  | [] => none
  | (k, _) :: rest =>
    if k = key then some 0 else (findKeyIdx key rest).map (· + 1)

/-- The scan in tree GetValue: value of the first slot holding the key. -/
def leafScanValue (key : Int) : List (Int × List Nat) → Option (List Nat)
  | [] => none
  | (k, v) :: rest => if k = key then some v else leafScanValue key rest

/-- insertInternal from bptree.go at the slot level: insert before the
first strictly larger key, else append (no duplicate check). -/
def insertInternalEntries (key : Int) (pid : Nat) :
    List (Int × Nat) → List (Int × Nat)
  | [] => [(key, pid)]
  | (k, c) :: rest =>
    if k > key then (key, pid) :: (k, c) :: rest
    else (k, c) :: insertInternalEntries key pid rest

/-- MoveLastToFrontOf at the slot level (polymorphic over the payload, the
source branches on IsLeaf for the payload copy; donor and recipient always
share a kind at the call site).  An empty donor is left unchanged; the call
site guarantees count > MinDegree. -/
def moveLastToFront {α : Type} (src dst : List (Int × α)) :
    List (Int × α) × List (Int × α) :=
  match src.getLast? with
  | none => (src, dst)
  | some e => (src.dropLast, e :: dst)

/-- MoveFirstToEndOf at the slot level; same conventions. -/
def moveFirstToEnd {α : Type} (src dst : List (Int × α)) :
    List (Int × α) × List (Int × α) :=
  match src with
  | [] => (src, dst)
  | e :: rest => (rest, dst ++ [e])

/-- SetKey at a slot index; out-of-range writes are not modelled (the call
sites in redistribute stay in range on non-corrupt states). -/
def setKeyAt {α : Type} : Nat → Int → List (Int × α) → List (Int × α)
  | _, _, [] => []
  | 0, key, (_, a) :: rest => (key, a) :: rest
  | n + 1, key, e :: rest => e :: setKeyAt n key rest

end Page

/-- Association-list lookup of the first binding of a key. -/
def alookup {κ α : Type} [DecidableEq κ] : List (κ × α) → κ → Option α
  | [], _ => none
  | (k, a) :: rest, key => if k = key then some a else alookup rest key

/-- In-place replacement of the first binding of a key (mutation of a page
through a frame leaves the frame where it is). -/
def aupdate {κ α : Type} [DecidableEq κ] :
    List (κ × α) → κ → α → List (κ × α)
  | [], _, _ => []
  | (k, a) :: rest, key, v =>
    if k = key then (k, v) :: rest else (k, a) :: aupdate rest key v

/-- Removal of the first binding of a key. -/
def aerase {κ α : Type} [DecidableEq κ] : List (κ × α) → κ → List (κ × α)
  | [], _ => []
  | (k, a) :: rest, key =>
    if k = key then rest else (k, a) :: aerase rest key

namespace Tree

/-- Combined state of one BPlusTree handle and its buffer pool, viewed
logically: the store maps each allocated page id to its current content
(whether the frame is resident or on disk makes no observable difference
to the tree operations when no read fails), pins carries the pin counts,
nextPageId is the disk manager allocation counter, rootPageId is the field
of the BPlusTree handle (InvalidPageID = -1 when empty). -/
structure TState where
  store : List (Nat × Page.BPlusTreePage)
  pins : List (Nat × Nat)
  nextPageId : Nat
  rootPageId : Int
deriving DecidableEq

def emptyState : TState :=
  { store := [], pins := [], nextPageId := 0, rootPageId := Page.InvalidPageID }

/-- Pin-count increment performed by a successful FetchPage. -/
def bumpPin (l : List (Nat × Nat)) (pid : Nat) : List (Nat × Nat) :=
  match alookup l pid with
  | none => l
  | some n => aupdate l pid (n + 1)

/-- FetchPage through the pool: present pages are returned with their pin
count incremented; a page that was never allocated (or was delete-paged)
is a miss, returned as none with the state unchanged. -/
def fetchPage (st : TState) (pid : Nat) : Option Page.BPlusTreePage × TState :=
  match alookup st.store pid with
  | none => (none, st)
  | some n => (some n, { st with pins := bumpPin st.pins pid })

/-- UnpinPage: decrement the pin count when it is positive; the source
returns an error (ignored by every tree call site) when the page is not
resident or its pin count is already zero, leaving the state unchanged. -/
def unpinPage (st : TState) (pid : Nat) : TState :=
  match alookup st.pins pid with
  | none => st
  | some 0 => st
  | some (n + 1) => { st with pins := aupdate st.pins pid n }

/-- NewPage: allocate the next page id, install a zeroed page (Clear) with
pin count 1. -/
def newPage (st : TState) : Nat × TState :=
  let pid := st.nextPageId
  (pid,
   { st with
     store := st.store ++ [(pid, Page.zeroPage)]
     pins := st.pins ++ [(pid, 1)]
     nextPageId := pid + 1 })

/-- DeletePage: a page that is not resident is only deallocated on disk
(a no-op); a pinned page cannot be deleted (returns false); otherwise the
page is removed. -/
def deletePage (st : TState) (pid : Nat) : Bool × TState :=
  match alookup st.store pid with
  | none => (true, st)
  | some _ =>
    match alookup st.pins pid with
    | some (_ + 1) => (false, st)
    | _ =>
      (true,
       { st with store := aerase st.store pid, pins := aerase st.pins pid })

/-- Writing a node back through its pinned frame. -/
def setNode (st : TState) (pid : Nat) (n : Page.BPlusTreePage) : TState :=
  { st with store := aupdate st.store pid n }

/-- The right-to-left scan in FindLeafPage: the rightmost slot whose key is
at most the search key. -/
def pickChildFromRight (key : Int) : List (Int × Nat) → Option Nat
  | [] => none
  | (k, c) :: rest =>
    match pickChildFromRight key rest with
    | some c2 => some c2
    | none => if k ≤ key then some c else none

/-- Child selection in FindLeafPage: the rightmost slot with key at most
the search key; if every key exceeds it, slot 0; on an empty node the
childPageId local stays 0. -/
def pickChild (key : Int) (entries : List (Int × Nat)) : Nat :=
  match pickChildFromRight key entries with
  | some c => c
  | none =>
    match entries with
    | [] => 0
    | (_, c) :: _ => c

/-- The descent loop of FindLeafPage, entered with the current page fetched
and pinned. -/
def findLeafLoop : Nat → TState → Nat → Int → Option Nat × TState
  | 0, st, _, _ => (none, st)
  | fuel + 1, st, pid, key =>
    match alookup st.store pid with
    | none => (none, st)
    | some node =>
      if node.IsLeaf then (some pid, st)
      else
        let child := pickChild key node.childEntries
        let st1 := unpinPage st pid
        match fetchPage st1 child with
        | (none, st2) => (none, st2)
        | (some _, st2) => findLeafLoop fuel st2 child key

/-- FindLeafPage from bptree.go: descend from the root, unpinning each
internal page after picking its child; the returned leaf stays pinned. -/
def FindLeafPage (fuel : Nat) (st : TState) (key : Int) :
    Option Nat × TState :=
  if st.rootPageId = Page.InvalidPageID then (none, st)
  else
    let rid := st.rootPageId.toNat
    match fetchPage st rid with
    | (none, st1) => (none, st1)
    | (some _, st1) => findLeafLoop fuel st1 rid key

/-- GetValue from bptree.go: descend to the leaf, scan for an exact match,
return the value with trailing zero bytes trimmed, unpin the leaf clean. -/
def GetValue (fuel : Nat) (st : TState) (key : Int) :
    Option (List Nat) × TState :=
  if st.rootPageId = Page.InvalidPageID then (none, st)
  else
    match FindLeafPage fuel st key with
    | (none, st1) => (none, st1)
    | (some lpid, st1) =>
      match alookup st1.store lpid with
      | none => (none, st1)
      | some leaf =>
        ((Page.leafScanValue key leaf.leafEntries).map Page.trimRightZeros,
         unpinPage st1 lpid)

/-- StartNewTree: allocate a page, initialize it as an empty leaf with
parent id 0, record it as the root, unpin dirty. -/
def StartNewTree (st : TState) : TState :=
  let r := newPage st
  let st2 := setNode r.2 r.1
    { Page.zeroPage with pageID := r.1, pageType := Page.KindLeaf, parentID := 0 }
  let st3 := { st2 with rootPageId := Int.ofNat r.1 }
  unpinPage st3 r.1

/-- insertInternal from bptree.go, acting on the node with the given id. -/
def insertInternal (st : TState) (pid : Nat) (key : Int) (child : Nat) :
    TState :=
  match alookup st.store pid with
  | none => st
  | some node =>
    setNode st pid
      { node with
        childEntries := Page.insertInternalEntries key child node.childEntries }

/-- The child-reparenting loop of the internal split in InsertIntoParent:
fetch each moved child, point its parent id at the new sibling, unpin
dirty (a failed fetch is skipped, as in the source). -/
def reparentAll (st : TState) (entries : List (Int × Nat)) (newParent : Nat) :
    TState :=
  entries.foldl
    (fun s e =>
      match fetchPage s e.2 with
      | (none, s1) => s1
      | (some child, s1) =>
        unpinPage (setNode s1 e.2 { child with parentID := newParent }) e.2)
    st

/-- Reading GetKey(0) of a pinned node through the store. -/
def readKey0 (st : TState) (pid : Nat) : Int :=
  match alookup st.store pid with
  | some n => n.GetKey0
  | none => 0

/-- Reading GetParentID of a pinned node through the store. -/
def readParentID (st : TState) (pid : Nat) : Nat :=
  match alookup st.store pid with
  | some n => n.parentID
  | none => 0

/-- SetParentID on a pinned node through the store. -/
def setParentOf (st : TState) (pid parent : Nat) : TState :=
  match alookup st.store pid with
  | some n => setNode st pid { n with parentID := parent }
  | none => st

/-- Reading the internal slots of a pinned node through the store. -/
def readChildEntries (st : TState) (pid : Nat) : List (Int × Nat) :=
  match alookup st.store pid with
  | some n => n.childEntries
  | none => []

/-- SetCount(splitIdx) after an internal split: the node keeps its first
splitIdx slots. -/
def truncateChildren (st : TState) (pid : Nat) (splitIdx : Nat) : TState :=
  match alookup st.store pid with
  | some p =>
    setNode st pid { p with childEntries := p.childEntries.take splitIdx }
  | none => st

/-- The non-root step of InsertIntoParent, after the parent has been
fetched, abstracted over the recursive call (recur is applied to the
state, the parent id, the new split key and the new sibling id). -/
def insertIntoParentStep (recur : TState → Nat → Int → Nat → TState)
    (st1 : TState) (parentNode : Page.BPlusTreePage) (parentId : Nat)
    (key : Int) (newPid : Nat) : TState :=
  if parentNode.IsFull then
    let r := newPage st1
    let splitIdx := parentNode.childEntries.length / 2
    let moved := parentNode.childEntries.drop splitIdx
    let st3 := setNode r.2 r.1
      { Page.zeroPage with
        pageID := r.1, pageType := Page.KindInternal
        parentID := parentNode.parentID
        childEntries := moved }
    let st4 := reparentAll st3 moved r.1
    let st5 := truncateChildren st4 parentId splitIdx
    let targetPid := if key ≥ Page.firstKey moved then r.1 else parentId
    let st6 := insertInternal st5 targetPid key newPid
    let newSplitKey := Page.firstKey (readChildEntries st6 r.1)
    let st7 := recur st6 parentId newSplitKey r.1
    let st8 := unpinPage st7 r.1
    unpinPage st8 parentId
  else
    let st2 := insertInternal st1 parentId key newPid
    unpinPage st2 parentId

/-- InsertIntoParent from bptree.go.  The old node and new node are passed
by page id (the source passes pinned page pointers; the caller keeps them
pinned, so reads go through the store without pin changes).  Root case:
allocate a new internal root with the two slots (old key 0, old id),
(split key, new id).  Otherwise fetch the parent; if full, split it,
reparent the moved children, insert the pending slot into the covering
side, and recurse upward with the new sibling's first key. -/
def InsertIntoParent : Nat → TState → Nat → Int → Nat → TState
  | 0, st, _, _, _ => st
  | fuel + 1, st, oldPid, key, newPid =>
    if Int.ofNat oldPid = st.rootPageId then
      let r := newPage st
      let oldK0 := readKey0 r.2 oldPid
      let st2 := setNode r.2 r.1
        { Page.zeroPage with
          pageID := r.1, pageType := Page.KindInternal, parentID := 0
          childEntries := [(oldK0, oldPid), (key, newPid)] }
      let st3 := { st2 with rootPageId := Int.ofNat r.1 }
      let st4 := setParentOf st3 oldPid r.1
      let st5 := setParentOf st4 newPid r.1
      unpinPage st5 r.1
    else
      match fetchPage st (readParentID st oldPid) with
      | (none, st1) => st1
      | (some parentNode, st1) =>
        insertIntoParentStep (InsertIntoParent fuel) st1 parentNode
          (readParentID st oldPid) key newPid

/-- The full-leaf branch of Insert, abstracted over InsertIntoParent (the
recursive parameters are the state, the old page id, the split key and
the new sibling id): allocate the sibling, splice it into the next chain,
move the upper half across, insert the new pair into the covering half,
then update the parent and unpin both leaves. -/
def insertSplitStep (recur : TState → Nat → Int → Nat → TState)
    (st1 : TState) (lpid : Nat) (leafNode : Page.BPlusTreePage)
    (key : Int) (val : List Nat) : TState :=
  let r := newPage st1
  let halves := Page.MoveHalfTo leafNode.leafEntries
  let sides :=
    if key ≥ Page.firstKey halves.2 then
      (halves.1, (Page.InsertLeaf key val halves.2).2)
    else
      ((Page.InsertLeaf key val halves.1).2, halves.2)
  let st3 := setNode r.2 r.1
    { Page.zeroPage with
      pageID := r.1, pageType := leafNode.pageType
      parentID := leafNode.parentID
      nextPageID := leafNode.nextPageID
      leafEntries := sides.2 }
  let st4 := setNode st3 lpid
    { leafNode with nextPageID := r.1, leafEntries := sides.1 }
  let splitKey := Page.firstKey sides.2
  let st5 := recur st4 lpid splitKey r.1
  let st6 := unpinPage st5 r.1
  unpinPage st6 lpid

/-- Insert from bptree.go.  Empty tree: start a new tree and insert into
the fresh root leaf.  Otherwise descend; a full leaf is split (sibling
spliced into the next chain, upper half moved, the new pair inserted into
the covering half, parent updated), a non-full leaf takes the pair in key
order with the duplicate-key flag as the result. -/
def Insert (fuel : Nat) (st : TState) (key : Int) (val : List Nat) :
    Bool × TState :=
  if st.rootPageId = Page.InvalidPageID then
    let st1 := StartNewTree st
    match fetchPage st1 st1.rootPageId.toNat with
    | (none, st2) => (false, st2)
    | (some rootNode, st2) =>
      let r := Page.InsertLeaf key val rootNode.leafEntries
      let st3 := setNode st2 st1.rootPageId.toNat
        { rootNode with leafEntries := r.2 }
      (true, unpinPage st3 st1.rootPageId.toNat)
  else
    match FindLeafPage fuel st key with
    | (none, st1) => (false, st1)
    | (some lpid, st1) =>
      match alookup st1.store lpid with
      | none => (false, st1)
      | some leafNode =>
        if leafNode.IsFull then
          (true, insertSplitStep (InsertIntoParent fuel) st1 lpid leafNode
            key val)
        else
          let r := Page.InsertLeaf key val leafNode.leafEntries
          let st2 := setNode st1 lpid { leafNode with leafEntries := r.2 }
          (r.1, unpinPage st2 lpid)

/-- The forward scan locating a node among its parent's child pointers;
the source initializes the index to -1 and leaves it there on a miss. -/
def findChildIdx (pid : Nat) : List (Int × Nat) → Int
  | [] => -1
  | (_, c) :: rest =>
    if c = pid then 0
    else
      let r := findChildIdx pid rest
      if r = -1 then -1 else r + 1

/-- Indexing a child slot by a (possibly -1) index; out of range yields the
zero page id, matching a read of zeroed bytes. -/
def childAt (entries : List (Int × Nat)) (idx : Int) : Nat :=
  if idx < 0 then 0
  else
    match entries.get? idx.toNat with
    | some e => e.2
    | none => 0

/-- The child-parent fixup in redistribute: fetch the child at slot 0 (or
the last slot), point its parent at the node, unpin dirty. -/
def reparentChildAt (st : TState) (nodePid : Nat) (useLast : Bool) : TState :=
  match alookup st.store nodePid with
  | none => st
  | some node =>
    let cid :=
      if useLast then ((node.childEntries.getLast?).map (·.2)).getD 0
      else ((node.childEntries.head?).map (·.2)).getD 0
    match fetchPage st cid with
    | (none, s1) => s1
    | (some child, s1) =>
      unpinPage (setNode s1 cid { child with parentID := nodePid }) cid

/-- SetKey on a parent slot, with the -1 index of a failed scan modelled as
a no-op (the source would write into the header; unreachable on the states
of the theorems below). -/
def setParentKeyAt (st : TState) (parentPid : Nat) (idx : Int) (key : Int) :
    TState :=
  match alookup st.store parentPid with
  | none => st
  | some parent =>
    if idx < 0 then st
    else
      setNode st parentPid
        { parent with childEntries := Page.setKeyAt idx.toNat key parent.childEntries }

/-- redistribute from bptree.go: borrow one slot from the sibling (last of
the left sibling to the front, or first of the right sibling to the end),
update the separator key in the parent, and for internal nodes reparent
the migrated child. -/
def redistribute (st : TState) (sibPid nodePid parentPid : Nat)
    (idxInParent : Int) (isLeftSibling : Bool) : TState :=
  match alookup st.store sibPid, alookup st.store nodePid with
  | some sib, some node =>
    if isLeftSibling then
      let moved :=
        if node.IsLeaf then
          let r := Page.moveLastToFront sib.leafEntries node.leafEntries
          ({ sib with leafEntries := r.1 }, { node with leafEntries := r.2 })
        else
          let r := Page.moveLastToFront sib.childEntries node.childEntries
          ({ sib with childEntries := r.1 }, { node with childEntries := r.2 })
      let st1 := setNode (setNode st sibPid moved.1) nodePid moved.2
      let st2 := setParentKeyAt st1 parentPid idxInParent moved.2.GetKey0
      if node.IsLeaf then st2 else reparentChildAt st2 nodePid false
    else
      let moved :=
        if node.IsLeaf then
          let r := Page.moveFirstToEnd sib.leafEntries node.leafEntries
          ({ sib with leafEntries := r.1 }, { node with leafEntries := r.2 })
        else
          let r := Page.moveFirstToEnd sib.childEntries node.childEntries
          ({ sib with childEntries := r.1 }, { node with childEntries := r.2 })
      let st1 := setNode (setNode st sibPid moved.1) nodePid moved.2
      let st2 := setParentKeyAt st1 parentPid (idxInParent + 1) moved.1.GetKey0
      if node.IsLeaf then st2 else reparentChildAt st2 nodePid true
  | _, _ => st

/-- The child loop in coalesce for internal nodes: every child of the
merged node is fetched; a child whose parent id is not yet the merged node
is rewritten and unpinned dirty, the others are unpinned clean. -/
def reparentCoalesced (st : TState) (leftPid : Nat) : TState :=
  match alookup st.store leftPid with
  | none => st
  | some left =>
    left.childEntries.foldl
      (fun s e =>
        match fetchPage s e.2 with
        | (none, s1) => s1
        | (some child, s1) =>
          if child.parentID ≠ leftPid then
            unpinPage (setNode s1 e.2 { child with parentID := leftPid }) e.2
          else unpinPage s1 e.2)
      st

/-- The parent slot removal in coalesce (layout.go Remove with the index of
the right partner; the source guards a negative index). -/
def parentRemoveAt (st : TState) (parentPid : Nat) (idx : Int) : TState :=
  match alookup st.store parentPid with
  | none => st
  | some parent =>
    if idx < 0 then st
    else
      setNode st parentPid
        { parent with childEntries := Page.removeAt idx.toNat parent.childEntries }

/-- adjustRoot from bptree.go: an emptied leaf root makes the tree empty
(root id invalid, delete-page the old root); an internal root with one
child hands the root to that child; otherwise the root is just unpinned. -/
def adjustRoot (st : TState) (rootPid : Nat) : TState :=
  match alookup st.store rootPid with
  | none => st
  | some oldRoot =>
    if oldRoot.IsLeaf && oldRoot.GetCount == 0 then
      (deletePage { st with rootPageId := Page.InvalidPageID } rootPid).2
    else if !oldRoot.IsLeaf && oldRoot.GetCount == 1 then
      let cid := ((oldRoot.childEntries.head?).map (·.2)).getD 0
      match fetchPage st cid with
      | (none, s1) => s1
      | (some child, s1) =>
        let s2 := setNode s1 cid { child with parentID := 0 }
        let s3 := { s2 with rootPageId := Int.ofNat cid }
        (deletePage (unpinPage s3 cid) rootPid).2
    else unpinPage st rootPid

/-- The body of coalesce from bptree.go, abstracted over the recursive
call back into coalesceOrRedistribute (so that the pair below is plainly
structural in the fuel): move every slot of the right partner to the end
of the left (MoveAllTo), fix the leaf next chain or reparent the moved
children, remove the parent slot of the right partner, delete-page the
right partner, and recurse upward if the parent now underflows. -/
def coalesceCore (recur : TState → Nat → TState) (st : TState)
    (leftPid rightPid parentPid : Nat) (rightIdx : Int) : TState :=
  match alookup st.store leftPid, alookup st.store rightPid with
  | some left, some right =>
    let merged :=
      if right.IsLeaf then
        ({ left with leafEntries := left.leafEntries ++ right.leafEntries },
         { right with leafEntries := [] })
      else
        ({ left with childEntries := left.childEntries ++ right.childEntries },
         { right with childEntries := [] })
    let st1 := setNode (setNode st leftPid merged.1) rightPid merged.2
    let st2 :=
      if left.IsLeaf then
        match alookup st1.store leftPid with
        | some l1 => setNode st1 leftPid { l1 with nextPageID := right.nextPageID }
        | none => st1
      else reparentCoalesced st1 leftPid
    let st3 := parentRemoveAt st2 parentPid rightIdx
    let st4 := (deletePage st3 rightPid).2
    match alookup st4.store parentPid with
    | none => st4
    | some parent =>
      if parent.GetCount < parent.MinDegree then recur st4 parentPid
      else st4
  | _, _ => st

/-- coalesceOrRedistribute from bptree.go: at the root, adjust the root;
otherwise fetch the parent, locate the node among its children, pick the
left sibling when one exists (else the right), then borrow one slot if the
sibling is above MinDegree or merge right-into-left otherwise, with the
unpin calls exactly as in the source. -/
def coalesceOrRedistribute : Nat → TState → Nat → TState
  | 0, st, _ => st
  | fuel + 1, st, nodePid =>
    if Int.ofNat nodePid = st.rootPageId then adjustRoot st nodePid
    else
      match alookup st.store nodePid with
      | none => st
      | some node =>
        match fetchPage st node.parentID with
        | (none, st1) => st1
        | (some parent, st1) =>
          let idxInParent := findChildIdx nodePid parent.childEntries
          let sibIdx :=
            if idxInParent > 0 then idxInParent - 1 else idxInParent + 1
          let sibPid := childAt parent.childEntries sibIdx
          match fetchPage st1 sibPid with
          | (none, st2) => st2
          | (some sib, st2) =>
            if sib.MinDegree < sib.GetCount then
              let st3 := redistribute st2 sibPid nodePid node.parentID
                idxInParent (sibIdx < idxInParent)
              let st4 := unpinPage st3 sibPid
              let st5 := unpinPage st4 node.parentID
              unpinPage st5 nodePid
            else
              if sibIdx < idxInParent then
                let st3 := coalesceCore (coalesceOrRedistribute fuel) st2
                  sibPid nodePid node.parentID idxInParent
                let st4 := unpinPage st3 sibPid
                unpinPage st4 node.parentID
              else
                let st3 := coalesceCore (coalesceOrRedistribute fuel) st2
                  nodePid sibPid node.parentID sibIdx
                let st4 := unpinPage st3 nodePid
                unpinPage st4 node.parentID

/-- coalesce from bptree.go, with the given fuel for the upward
recursion. -/
def coalesce (fuel : Nat) (st : TState) (leftPid rightPid parentPid : Nat)
    (rightIdx : Int) : TState :=
  coalesceCore (coalesceOrRedistribute fuel) st leftPid rightPid parentPid
    rightIdx

/-- Remove from bptree.go: descend to the leaf, remove the slot holding
the key (absence unpins clean and returns false); a root leaf that became
empty empties the tree; a non-root leaf below MinDegree is repaired by
coalesceOrRedistribute; otherwise unpin dirty. -/
def Remove (fuel : Nat) (st : TState) (key : Int) : Bool × TState :=
  if st.rootPageId = Page.InvalidPageID then (false, st)
  else
    match FindLeafPage fuel st key with
    | (none, st1) => (false, st1)
    | (some lpid, st1) =>
      match alookup st1.store lpid with
      | none => (false, st1)
      | some leafNode =>
        match Page.findKeyIdx key leafNode.leafEntries with
        | none => (false, unpinPage st1 lpid)
        | some idx =>
          let leaf1 :=
            { leafNode with leafEntries := Page.removeAt idx leafNode.leafEntries }
          let st2 := setNode st1 lpid leaf1
          if Int.ofNat lpid = st2.rootPageId then
            let st3 :=
              if leaf1.GetCount = 0 then
                { st2 with rootPageId := Page.InvalidPageID }
              else st2
            (true, unpinPage st3 lpid)
          else
            if leaf1.GetCount < leaf1.MinDegree then
              (true, coalesceOrRedistribute fuel st2 lpid)
            else (true, unpinPage st2 lpid)

/-- The iterator state: the id of the pinned leaf (none once closed or
exhausted) and the slot cursor. -/
structure TreeIterator where
  currPage : Option Nat
  currIdx : Nat

/-- TreeIterator Value: the raw 128-byte slot value at the cursor, with no
trimming. -/
def TreeIterator.Value (st : TState) (it : TreeIterator) : Option (List Nat) :=
  match it.currPage with
  | none => none
  | some pid =>
    match alookup st.store pid with
    | none => none
    | some p => (p.leafEntries.get? it.currIdx).map (·.2)

/-- The one-byte value (the byte of the letter v, as in the delete test)
used by every concrete run below; for a repeated one-byte value the padded
slot model coincides byte-for-byte with the source. -/
def demoVal : List Nat := [118]

/-- Insert keys 0, 1, ..., n-1 in ascending order into the empty tree,
conjoining the returned success flags. -/
def insertRun : Nat → Bool × TState
  | 0 => (true, emptyState)
  | n + 1 =>
    let r := insertRun n
    let r2 := Insert 50 r.2 (Int.ofNat n) demoVal
    (r.1 && r2.1, r2.2)

/-- The state after inserting keys 0..n-1 in ascending order. -/
def insertSeq (n : Nat) : TState := (insertRun n).2

end Tree

namespace Buf

/-- The LRU replacer: an ordered list of frame ids, most recently unpinned
at the front, victim taken from the back; the elements map of the source
only mirrors membership in the list. -/
structure LRUReplacer where
  lst : List Nat
  capacity : Nat
deriving DecidableEq

/-- Victim: remove and return the least recently used frame (the back of
the list), or -1 mapped to none when empty. -/
def LRUReplacer.Victim (r : LRUReplacer) : Option Nat × LRUReplacer :=
  match r.lst.getLast? with
  | none => (none, r)
  | some f => (some f, { r with lst := r.lst.dropLast })

/-- Pin: remove the frame from the list if present. -/
def LRUReplacer.Pin (r : LRUReplacer) (f : Nat) : LRUReplacer :=
  { r with lst := r.lst.erase f }

/-- Unpin: insert at the front as most recently used, a no-op when already
present or when the list is at capacity. -/
def LRUReplacer.Unpin (r : LRUReplacer) (f : Nat) : LRUReplacer :=
  if f ∈ r.lst then r
  else if r.capacity ≤ r.lst.length then r
  else { r with lst := f :: r.lst }

/-- A frame's page object: control state plus the 4096-byte payload (kept
abstract as a byte list). -/
structure Page where
  id : Int
  pinCount : Nat
  isDirty : Bool
  data : List Nat
deriving DecidableEq

def zeroData : List Nat := List.replicate Page.PageSize 0

def emptyPage : Page :=
  { id := Page.InvalidPageID, pinCount := 0, isDirty := false, data := zeroData }

/-- The disk manager as seen by the pool: the written pages, the allocation
counter, and an oracle of page ids whose read fails (modelling I/O errors
and short reads past the end of the file). -/
structure DiskSim where
  contents : List (Int × List Nat)
  nextPageID : Int
  failing : List Int
deriving DecidableEq

/-- ReadPage: fails for ids in the failing oracle; an id never written
reads as zeros (the pool only reads ids it knows of; a read past the end
of the file is represented by membership in the oracle). -/
def DiskSim.ReadPage (d : DiskSim) (pid : Int) : Option (List Nat) :=
  if pid ∈ d.failing then none
  else some ((alookup d.contents pid).getD zeroData)

/-- WritePage: store the payload at the id. -/
def DiskSim.WritePage (d : DiskSim) (pid : Int) (data : List Nat) : DiskSim :=
  { d with
    contents :=
      match alookup d.contents pid with
      | some _ => aupdate d.contents pid data
      | none => d.contents ++ [(pid, data)] }

/-- AllocatePage: return the counter and increment it. -/
def DiskSim.AllocatePage (d : DiskSim) : Int × DiskSim :=
  (d.nextPageID, { d with nextPageID := d.nextPageID + 1 })

/-- The buffer pool manager state: the frame array (index = frame id), the
free list, the page table, the replacer and the disk manager. -/
structure BPM where
  pages : List Page
  freeList : List Nat
  pageTable : List (Int × Nat)
  replacer : LRUReplacer
  disk : DiskSim
deriving DecidableEq

/-- Reading a frame by index (call sites keep indices in range). -/
def BPM.frame (b : BPM) (f : Nat) : Page := (b.pages.get? f).getD emptyPage

def BPM.setFrame (b : BPM) (f : Nat) (p : Page) : BPM :=
  { b with pages := b.pages.set f p }

/-- findVictimFrame: pop the free list if possible; otherwise evict the
LRU victim, writing its page back first when dirty and removing its id
from the page table. -/
def findVictimFrame (b : BPM) : Option Nat × BPM :=
  match b.freeList with
  | f :: rest => (some f, { b with freeList := rest })
  | [] =>
    match b.replacer.Victim with
    | (none, _) => (none, b)
    | (some f, rep) =>
      let b1 := { b with replacer := rep }
      let victim := b1.frame f
      let b2 :=
        if victim.isDirty then
          { b1 with disk := b1.disk.WritePage victim.id victim.data }
        else b1
      (some f, { b2 with pageTable := aerase b2.pageTable victim.id })

/-- The miss path of FetchPage after victim selection: reset the frame's
control state, read from disk (the read goes to the same disk manager,
which the frame reset does not touch; a failed read returns none with the
frame left in that half-way state), then install the page-table entry and
pin. -/
def installFrame (b1 : BPM) (pid : Int) (f : Nat) : Option Nat × BPM :=
  let p := b1.frame f
  let b2 := b1.setFrame f { p with id := pid, pinCount := 1, isDirty := false }
  match b1.disk.ReadPage pid with
  | none => (none, b2)
  | some data =>
    let p2 := b2.frame f
    let b3 := b2.setFrame f { p2 with data := data }
    let b4 := { b3 with pageTable := b3.pageTable ++ [(pid, f)] }
    (some f, { b4 with replacer := b4.replacer.Pin f })

/-- FetchPage: on a hit, pin the frame in the replacer and bump its pin
count; on a miss, take a victim frame and install the page into it. -/
def FetchPage (b : BPM) (pid : Int) : Option Nat × BPM :=
  match alookup b.pageTable pid with
  | some f =>
    let b1 := { b with replacer := b.replacer.Pin f }
    let p := b1.frame f
    (some f, b1.setFrame f { p with pinCount := p.pinCount + 1 })
  | none =>
    match findVictimFrame b with
    | (none, b1) => (none, b1)
    | (some f, b1) => installFrame b1 pid f

/-- UnpinPage: false stands for the error returns of the source (page not
resident, pin count already zero); the dirty hint is sticky. -/
def UnpinPage (b : BPM) (pid : Int) (isDirty : Bool) : Bool × BPM :=
  match alookup b.pageTable pid with
  | none => (false, b)
  | some f =>
    let p := b.frame f
    match p.pinCount with
    | 0 => (false, b)
    | n + 1 =>
      let p1 := { p with pinCount := n, isDirty := p.isDirty || isDirty }
      let b1 := b.setFrame f p1
      if n = 0 then (true, { b1 with replacer := b1.replacer.Unpin f })
      else (true, b1)

/-- The tail of NewPage after victim selection: allocate a fresh id, zero
the payload, install the mapping and pin. -/
def installNewFrame (b1 : BPM) (f : Nat) : Option Nat × BPM :=
  let alloc := b1.disk.AllocatePage
  let b2 := { b1 with disk := alloc.2 }
  let b3 := b2.setFrame f
    { id := alloc.1, pinCount := 1, isDirty := false, data := zeroData }
  let b4 := { b3 with pageTable := b3.pageTable ++ [(alloc.1, f)] }
  (some f, { b4 with replacer := b4.replacer.Pin f })

/-- NewPage: take a victim frame, allocate a fresh id into it. -/
def NewPage (b : BPM) : Option Nat × BPM :=
  match findVictimFrame b with
  | (none, b1) => (none, b1)
  | (some f, b1) => installNewFrame b1 f

/-- FlushPage: write a resident page to disk and clear its dirty bit. -/
def FlushPage (b : BPM) (pid : Int) : Bool × BPM :=
  match alookup b.pageTable pid with
  | none => (false, b)
  | some f =>
    let p := b.frame f
    let b1 := { b with disk := b.disk.WritePage pid p.data }
    (true, b1.setFrame f { p with isDirty := false })

/-- DeletePage: a non-resident page is only deallocated (a no-op on the
disk model); a pinned page refuses; otherwise remove the mapping, stop LRU
tracking, return the frame to the free list with reset control state. -/
def DeletePage (b : BPM) (pid : Int) : Bool × BPM :=
  match alookup b.pageTable pid with
  | none => (true, b)
  | some f =>
    let p := b.frame f
    if 0 < p.pinCount then (false, b)
    else
      let b1 := { b with pageTable := aerase b.pageTable pid }
      let b2 := { b1 with replacer := b1.replacer.Pin f }
      let b3 := { b2 with freeList := b2.freeList ++ [f] }
      (true, b3.setFrame f
        { p with id := Page.InvalidPageID, pinCount := 0, isDirty := false })

/-- FlushAllPages: write back every frame holding a valid dirty page and
clear its dirty bit (by frame, as the source iterates the pages array). -/
def FlushAllPages (b : BPM) : BPM :=
  (List.range b.pages.length).foldl
    (fun acc f =>
      let p := acc.frame f
      if p.id ≠ Page.InvalidPageID && p.isDirty then
        let acc1 := { acc with disk := acc.disk.WritePage p.id p.data }
        acc1.setFrame f { p with isDirty := false }
      else acc)
    b

/-- The public operations of the pool, for quantifying over every call a
client can make. -/
inductive PoolOp where
  | fetch (pid : Int)
  | unpin (pid : Int) (isDirty : Bool)
  | newP
  | flush (pid : Int)
  | flushAll
  | delete (pid : Int)

def applyOp (b : BPM) : PoolOp → BPM
  | .fetch pid => (FetchPage b pid).2
  | .unpin pid d => (UnpinPage b pid d).2
  | .newP => (NewPage b).2
  | .flush pid => (FlushPage b pid).2
  | .flushAll => FlushAllPages b
  | .delete pid => (DeletePage b pid).2

end Buf

namespace Disk

/-- Conversion to int32, the underlying type of page.PageID: keep the low
32 bits and read them as two's complement, which is what both a Go integer
conversion and int32 increment overflow do.  The result lies in
[-2^31, 2^31). -/
def toInt32 (n : Int) : Int := (n + 2 ^ 31) % 2 ^ 32 - 2 ^ 31

/-- The disk manager allocation state of disk_manager.go: the next page
id, an int32 (page.PageID) represented by its two's-complement value. -/
structure DiskManagerImpl where
  nextPageID : Int
deriving DecidableEq

/-- NewDiskManager on a file of the given size in bytes: the int64 file
size divided by the page size is converted to the int32 page.PageID,
truncating. -/
def NewDiskManager (fileSize : Nat) : DiskManagerImpl :=
  { nextPageID := toInt32 (Int.ofNat (fileSize / Page.PageSize)) }

/-- AllocatePage: return the counter, then increment it; the int32
counter wraps on overflow. -/
def DiskManagerImpl.AllocatePage (d : DiskManagerImpl) : Int × DiskManagerImpl :=
  (d.nextPageID, { nextPageID := toInt32 (d.nextPageID + 1) })

/-- The state after n AllocatePage calls. -/
def allocIter (d : DiskManagerImpl) : Nat → DiskManagerImpl
  | 0 => d
  | n + 1 => (allocIter d n).AllocatePage.2

/-- The result of the (n+1)-st AllocatePage call (n previous calls). -/
def allocResult (d : DiskManagerImpl) (n : Nat) : Int :=
  (allocIter d n).AllocatePage.1

end Disk

namespace Tree

/-- Remove 28 and then 0 from the two-leaf tree built by 29 ascending
inserts; the second removal underflows the left leaf and merges the right
leaf into it. -/
def c3Run : Bool × Bool × TState :=
  let r1 := Remove 50 (insertSeq 29) 28
  let r2 := Remove 50 r1.2 0
  (r1.1, r2.1, r2.2)

/-- Insert one key into the empty tree, then remove it again. -/
def c6Run : Bool × TState :=
  Remove 50 (Insert 50 emptyState 1 demoVal).2 1

/-- Insert the already-present key 0 into the tree whose single (root)
leaf is exactly full with keys 0..27. -/
def c7Run : Bool × TState := Insert 50 (insertSeq 28) 0 demoVal

end Tree

/-
  Generic association-list lemmas.
-/

theorem alookup_aupdate_self {κ α : Type} [DecidableEq κ]
    {l : List (κ × α)} {k : κ} {v0 : α} (h : alookup l k = some v0) (v : α) :
    alookup (aupdate l k v) k = some v := by
  induction l with
  | nil => simp [alookup] at h
  | cons e rest ih =>
    obtain ⟨a, b⟩ := e
    by_cases he : a = k
    · simp [alookup, aupdate, he]
    · simp only [alookup, aupdate, he, if_false] at h ⊢
      exact ih h

theorem aupdate_self_of_lookup {κ α : Type} [DecidableEq κ]
    {l : List (κ × α)} {k : κ} {v : α} (h : alookup l k = some v) :
    aupdate l k v = l := by
  induction l with
  | nil => rfl
  | cons e rest ih =>
    obtain ⟨a, b⟩ := e
    by_cases he : a = k
    · simp [alookup, he] at h
      simp [aupdate, he, h]
    · simp only [alookup, he, if_false] at h
      simp [aupdate, he, ih h]

theorem alookup_aupdate_none {κ α : Type} [DecidableEq κ]
    {l : List (κ × α)} {p : κ} (h : alookup l p = none) (k : κ) (v : α) :
    alookup (aupdate l k v) p = none := by
  induction l with
  | nil => rfl
  | cons e rest ih =>
    obtain ⟨a, b⟩ := e
    by_cases hp : a = p
    · simp [alookup, hp] at h
    · by_cases he : a = k
      · simp only [alookup, hp, if_false] at h
        simp [aupdate, alookup, he, hp, h]
        exact fun hk => hp (he.trans hk)
      · simp only [alookup, hp, if_false] at h
        simp [aupdate, alookup, he, hp, ih h]

theorem alookup_append_some {κ α : Type} [DecidableEq κ]
    {l : List (κ × α)} {k : κ} {v : α} (h : alookup l k = some v)
    (l2 : List (κ × α)) : alookup (l ++ l2) k = some v := by
  induction l with
  | nil => simp [alookup] at h
  | cons e rest ih =>
    obtain ⟨a, b⟩ := e
    by_cases he : a = k
    · simp [alookup, he] at h
      simp [alookup, he, h]
    · simp only [alookup, he, if_false, List.cons_append] at h ⊢
      exact ih h

theorem alookup_append_none {κ α : Type} [DecidableEq κ]
    {l : List (κ × α)} {k : κ} (h : alookup l k = none)
    (l2 : List (κ × α)) : alookup (l ++ l2) k = alookup l2 k := by
  induction l with
  | nil => rfl
  | cons e rest ih =>
    obtain ⟨a, b⟩ := e
    by_cases he : a = k
    · simp [alookup, he] at h
    · simp only [alookup, he, if_false, List.cons_append] at h ⊢
      exact ih h

/-
  Pin bookkeeping lemmas: a fetch followed by the matching unpin restores
  the pin table exactly.
-/

namespace Tree

theorem aupdate_aupdate {κ α : Type} [DecidableEq κ]
    (l : List (κ × α)) (k : κ) (v w : α) :
    aupdate (aupdate l k v) k w = aupdate l k w := by
  induction l with
  | nil => rfl
  | cons e rest ih =>
    by_cases he : e.1 = k <;> simp [aupdate, he, ih]

theorem unpinPage_bumpPin (st : TState) (pid : Nat) :
    unpinPage { st with pins := bumpPin st.pins pid } pid = st := by
  unfold bumpPin
  cases h : alookup st.pins pid with
  | none => simp [unpinPage, h]
  | some n =>
    simp only [unpinPage, alookup_aupdate_self h (n + 1)]
    simp [aupdate_aupdate, aupdate_self_of_lookup h]

theorem fetchPage_some {st : TState} {pid : Nat} {n : Page.BPlusTreePage}
    (h : alookup st.store pid = some n) :
    fetchPage st pid = (some n, { st with pins := bumpPin st.pins pid }) := by
  simp [fetchPage, h]

theorem unpinPage_proj (s : TState) (pid : Nat) :
    (unpinPage s pid).store = s.store ∧
    (unpinPage s pid).rootPageId = s.rootPageId ∧
    (unpinPage s pid).nextPageId = s.nextPageId := by
  unfold unpinPage
  cases alookup s.pins pid with
  | none => exact ⟨rfl, rfl, rfl⟩
  | some n =>
    cases n with
    | zero => exact ⟨rfl, rfl, rfl⟩
    | succ m => exact ⟨rfl, rfl, rfl⟩

/-
  FindLeafPage: on success the state is the input state with exactly one
  extra pin on the returned leaf, and the returned page is a leaf of the
  input store.
-/

theorem findLeafLoop_spec (fuel : Nat) :
    ∀ (st : TState) (pid : Nat) (key : Int) (lpid : Nat) (st1 : TState),
      findLeafLoop fuel { st with pins := bumpPin st.pins pid } pid key =
          (some lpid, st1) →
      st1 = { st with pins := bumpPin st.pins lpid } ∧
      ∃ L, alookup st.store lpid = some L ∧ L.IsLeaf = true := by
  induction fuel with
  | zero => intro st pid key lpid st1 h; simp [findLeafLoop] at h
  | succ f ih =>
    intro st pid key lpid st1 h
    simp only [findLeafLoop] at h
    cases hn : alookup st.store pid with
    | none => simp [hn] at h
    | some node =>
      simp only [hn] at h
      by_cases hleaf : node.IsLeaf
      · simp only [hleaf, if_true] at h
        have h1 : pid = lpid := by
          have := congrArg Prod.fst h
          simpa using this
        have h2 : st1 = { st with pins := bumpPin st.pins pid } := by
          have := congrArg Prod.snd h
          simpa using this.symm
        subst h1
        exact ⟨h2, node, hn, hleaf⟩
      · simp only [hleaf, if_false] at h
        rw [unpinPage_bumpPin] at h
        set child := pickChild key node.childEntries with hc
        cases hcn : alookup st.store child with
        | none => rw [fetchPage, hcn] at h; simp at h
        | some cnode =>
          rw [fetchPage_some hcn] at h
          exact ih st child key lpid st1 h

theorem FindLeafPage_spec {fuel : Nat} {st : TState} {key : Int}
    {lpid : Nat} {st1 : TState}
    (h : FindLeafPage fuel st key = (some lpid, st1)) :
    st1 = { st with pins := bumpPin st.pins lpid } ∧
    ∃ L, alookup st.store lpid = some L ∧ L.IsLeaf = true := by
  unfold FindLeafPage at h
  by_cases hroot : st.rootPageId = Page.InvalidPageID
  · simp [hroot] at h
  · simp only [hroot, if_false] at h
    cases hn : alookup st.store st.rootPageId.toNat with
    | none => rw [fetchPage, hn] at h; simp at h
    | some node =>
      rw [fetchPage_some hn] at h
      exact findLeafLoop_spec fuel st st.rootPageId.toNat key lpid st1 h

end Tree

/-
  Disk manager allocation lemma.
-/

theorem toInt32_eq_self {m : Int} (h1 : -2 ^ 31 ≤ m) (h2 : m < 2 ^ 31) :
    Disk.toInt32 m = m := by
  unfold Disk.toInt32
  have h3 : (0 : Int) ≤ m + 2 ^ 31 := by omega
  have h4 : m + 2 ^ 31 < 2 ^ 32 := by omega
  rw [Int.emod_eq_of_lt h3 h4]
  omega

/-- As long as the int32 counter stays below 2^31, the wrap-around
increments behave like plain increments. -/
theorem allocIter_nextPageID (d : Disk.DiskManagerImpl)
    (hlow : -2 ^ 31 ≤ d.nextPageID) :
    ∀ n : Nat, d.nextPageID + (n : Int) < 2 ^ 31 →
      (Disk.allocIter d n).nextPageID = d.nextPageID + (n : Int) := by
  intro n
  induction n with
  | zero =>
    intro hb
    simp [Disk.allocIter]
  | succ k ih =>
    intro hb
    have hcast : ((k + 1 : Nat) : Int) = (k : Int) + 1 := by push_cast; ring
    rw [hcast] at hb
    have hbk : d.nextPageID + (k : Int) < 2 ^ 31 := by omega
    have hik := ih hbk
    show Disk.toInt32 ((Disk.allocIter d k).nextPageID + 1) =
      d.nextPageID + ((k + 1 : Nat) : Int)
    rw [hik, hcast, toInt32_eq_self (by omega) (by omega)]
    ring

/-
  Value padding and trimming lemmas.
-/

theorem padVal_length (v : List Nat) :
    (Page.padVal v).length = Page.SizeOfVal := by
  simp [Page.padVal, Page.SizeOfVal]
  omega

theorem dropWhile_zero_replicate_append (m : Nat) (l : List Nat) :
    List.dropWhile (· == 0) (List.replicate m 0 ++ l) =
      List.dropWhile (· == 0) l := by
  induction m with
  | zero => rfl
  | succ k ih => simp [List.replicate_succ, List.dropWhile, ih]

theorem length_dropWhile_le {α : Type} (p : α → Bool) (l : List α) :
    (l.dropWhile p).length ≤ l.length := by
  induction l with
  | nil => simp
  | cons x rest ih =>
    by_cases h : p x
    · simp only [List.dropWhile, h, List.length_cons]
      omega
    · simp [List.dropWhile, h]

theorem trim_padVal_length_le (v : List Nat) :
    (Page.trimRightZeros (Page.padVal v)).length ≤ v.length := by
  unfold Page.trimRightZeros Page.padVal
  rw [List.reverse_append, List.reverse_replicate,
    dropWhile_zero_replicate_append]
  calc (List.dropWhile (· == 0) (v.take Page.SizeOfVal).reverse).reverse.length
      ≤ (v.take Page.SizeOfVal).reverse.length := by
        rw [List.length_reverse]
        exact length_dropWhile_le _ _
    _ ≤ v.length := by
        rw [List.length_reverse, List.length_take]
        omega

theorem trim_padVal_ne (v : List Nat) (h : v.length < Page.SizeOfVal) :
    Page.trimRightZeros (Page.padVal v) ≠ Page.padVal v := by
  intro he
  have h1 := trim_padVal_length_le v
  rw [he, padVal_length] at h1
  omega

/-
  Claim theorems.
-/

/-- C1 (code bug): inserting the 421 distinct keys 0..420 in ascending
order into the empty tree succeeds for every key, yet GetValue(406) then
returns not-found.  Mechanism: a leaf created as the pending child of an
internal-node split keeps a stale parent id, so when that leaf later
splits, the pointer to its new sibling is registered in the wrong internal
node and the sibling's keys (406..420) become unreachable by descent.
This contradicts the round-trip property and the repository's own
benchmark test. -/
theorem C1_inserted_key_lost :
    (Tree.insertRun 421).1 = true ∧
    (Tree.GetValue 50 (Tree.insertSeq 421) 406).1 = none := by
  decide

/-- C2, counterexample: key 0 is present in the tree whose root leaf is
exactly full (keys 0..27), yet Insert(0, v) returns true, not false, and
the tree is changed (the leaf is split: three pages exist afterwards).
The source checks fullness before the duplicate scan, so a duplicate
insert into a full leaf splits the leaf and reports success. -/
theorem C2_duplicate_insert_full_leaf_cex :
    Page.leafScanValue 0
      ((alookup (Tree.insertSeq 28).store 0).getD Page.zeroPage).leafEntries ≠
        none ∧
    ((alookup (Tree.insertSeq 28).store 0).getD Page.zeroPage).IsFull = true ∧
    Tree.c7Run.1 = true ∧
    Tree.c7Run.2.store.length = 3 := by
  decide

/-- C3 (code bug): after insert 0..28 (which splits the root leaf into
leaves 0 and 1 under root 2), Remove(28) and then Remove(0) both succeed,
but the coalesce triggered by the second removal calls DeletePage on leaf
1 while it is still pinned; DeletePage refuses and no unpin of that page
ever runs, so after the operation returns its pin count is 1, not 0. -/
theorem C3_pin_leak_after_coalesce :
    Tree.c3Run.1 = true ∧
    Tree.c3Run.2.1 = true ∧
    alookup Tree.c3Run.2.2.pins 1 = some 1 := by
  decide

/-- C4 (code bug): after inserting keys 0..406 in ascending order the
root (page 31) has just been created by an internal split, and the
non-root internal node at page 2 holds only 14 slots, violating the
claimed lower bound MinDegree = (MaxDegree+1)/2 = 15 for internal nodes;
splitting a full internal node of 28 slots necessarily leaves one half
with 14.  -/
theorem C4_internal_node_below_MinDegree :
    (Tree.insertRun 407).1 = true ∧
    (Tree.insertSeq 407).rootPageId = 31 ∧
    (alookup (Tree.insertSeq 407).store 2).map
        (fun n => (n.pageType, n.GetCount, n.MinDegree)) =
      some (Page.KindInternal, 14, 15) := by
  decide

/-- C6, counterexample: insert key 1 into the empty tree and remove it.
Remove returns true and the root id becomes invalid, but the old root
page (page 0) is still allocated: the root case of Remove never calls
DeletePage (the adjustRoot path that would is unreachable for a root
leaf). -/
theorem C6_old_root_not_deleted_cex :
    Tree.c6Run.1 = true ∧
    Tree.c6Run.2.rootPageId = Page.InvalidPageID ∧
    alookup Tree.c6Run.2.store 0 ≠ none := by
  decide

/-- C8, counterexample: on a database file of size 2^43 bytes (2^31 pages
of 4096 bytes) the int32 page.PageID truncates the quotient Size/PageSize
on open, so the first AllocatePage call returns -2^31, not S / PageSize =
2^31, refuting the claim as stated for large files; the increment
likewise wraps there instead of growing by one. -/
theorem C8_allocate_page_truncation_cex :
    Disk.allocResult (Disk.NewDiskManager (2 ^ 43)) 0 ≠
      Int.ofNat (2 ^ 43 / Page.PageSize) := by
  decide

/-- C8 (amended): as long as the int32 allocation counter stays below
2^31 for the calls considered (S / PageSize + n + 1 < 2^31), the first
AllocatePage call after opening a database file of size S returns page id
S / PageSize, and every subsequent call returns the previous result plus
one, so allocated ids increase strictly monotonically by one; at the
int32 boundary the counter truncates or wraps instead (see the
counterexample). -/
theorem C8_allocate_page_monotonic (S n : Nat)
    (h : S / Page.PageSize + n + 1 < 2 ^ 31) :
    Disk.allocResult (Disk.NewDiskManager S) 0 =
      ((S / Page.PageSize : Nat) : Int) ∧
    Disk.allocResult (Disk.NewDiskManager S) (n + 1) =
      Disk.allocResult (Disk.NewDiskManager S) n + 1 := by
  generalize hq : S / Page.PageSize = q
  rw [hq] at h
  have h0 : (Disk.NewDiskManager S).nextPageID = ((q : Nat) : Int) := by
    show Disk.toInt32 ((S / Page.PageSize : Nat) : Int) = ((q : Nat) : Int)
    rw [hq]
    exact toInt32_eq_self (by omega) (by omega)
  have hlow : -2 ^ 31 ≤ (Disk.NewDiskManager S).nextPageID := by
    rw [h0]
    omega
  have hb1 : (Disk.NewDiskManager S).nextPageID + (n : Int) < 2 ^ 31 := by
    rw [h0]
    omega
  have hb2 : (Disk.NewDiskManager S).nextPageID + ((n + 1 : Nat) : Int) <
      2 ^ 31 := by
    rw [h0]
    omega
  constructor
  · exact h0
  · show (Disk.allocIter (Disk.NewDiskManager S) (n + 1)).nextPageID =
      (Disk.allocIter (Disk.NewDiskManager S) n).nextPageID + 1
    rw [allocIter_nextPageID _ hlow (n + 1) hb2,
      allocIter_nextPageID _ hlow n hb1]
    push_cast
    ring

/-- Witness for C8: on a two-page file (8192 bytes) the first call
returns 2 and the second returns 3. -/
theorem C8_allocate_page_monotonic_witness :
    Disk.allocResult (Disk.NewDiskManager 8192) 0 =
      ((8192 / Page.PageSize : Nat) : Int) ∧
    Disk.allocResult (Disk.NewDiskManager 8192) (0 + 1) =
      Disk.allocResult (Disk.NewDiskManager 8192) 0 + 1 :=
  C8_allocate_page_monotonic 8192 0 (by decide)

/-- C9: for an iterator positioned on a leaf slot holding key k (here: the
slot at index idx of the leaf page lpid, storing the zero-padded inserted
value v), Value returns the full 128-byte stored buffer without trimming,
while GetValue(k) on the tree returns the same buffer with trailing zero
bytes trimmed; for every inserted value shorter than 128 bytes the two
results differ. -/
theorem C9_iterator_raw_vs_trimmed
    (fuel : Nat) (st : Tree.TState) (key : Int) (lpid idx : Nat)
    (v : List Nat) (L : Page.BPlusTreePage)
    (hf : (Tree.FindLeafPage fuel st key).1 = some lpid)
    (hL : alookup st.store lpid = some L)
    (hidx : L.leafEntries.get? idx = some (key, Page.padVal v))
    (hscan : Page.leafScanValue key L.leafEntries = some (Page.padVal v))
    (hshort : v.length < Page.SizeOfVal) :
    Tree.TreeIterator.Value st ⟨some lpid, idx⟩ = some (Page.padVal v) ∧
    (Tree.GetValue fuel st key).1 =
      some (Page.trimRightZeros (Page.padVal v)) ∧
    Tree.TreeIterator.Value st ⟨some lpid, idx⟩ ≠
      (Tree.GetValue fuel st key).1 := by
  have hpair : Tree.FindLeafPage fuel st key =
      (some lpid, (Tree.FindLeafPage fuel st key).2) := by
    rw [← hf]
  have hroot : ¬st.rootPageId = Page.InvalidPageID := by
    intro hr
    rw [Tree.FindLeafPage, if_pos hr] at hf
    simp at hf
  obtain ⟨hst1, -⟩ := Tree.FindLeafPage_spec hpair
  have hval : Tree.TreeIterator.Value st ⟨some lpid, idx⟩ =
      some (Page.padVal v) := by
    simp only [Tree.TreeIterator.Value, hL, hidx]
    rfl
  have hget : (Tree.GetValue fuel st key).1 =
      some (Page.trimRightZeros (Page.padVal v)) := by
    rw [Tree.GetValue, if_neg hroot, hpair]
    simp only [hst1]
    simp [hL, hscan]
  refine ⟨hval, hget, ?_⟩
  rw [hval, hget]
  intro he
  exact trim_padVal_ne v hshort (Option.some.inj he).symm

/-- The root leaf of the one-leaf state used to witness C9: it holds key
5 with the padded one-byte value 7. -/
def c9Leaf : Page.BPlusTreePage :=
  { Page.zeroPage with
    pageType := Page.KindLeaf
    leafEntries := [(5, Page.padVal [7])] }

/-- The one-leaf state used to witness C9. -/
def c9State : Tree.TState :=
  { store := [(0, c9Leaf)]
    pins := [(0, 0)]
    nextPageId := 1
    rootPageId := 0 }

/-- Witness for C9 at the concrete one-leaf state. -/
theorem C9_iterator_raw_vs_trimmed_witness :
    Tree.TreeIterator.Value c9State ⟨some 0, 0⟩ = some (Page.padVal [7]) ∧
    (Tree.GetValue 1 c9State 5).1 =
      some (Page.trimRightZeros (Page.padVal [7])) ∧
    Tree.TreeIterator.Value c9State ⟨some 0, 0⟩ ≠
      (Tree.GetValue 1 c9State 5).1 :=
  C9_iterator_raw_vs_trimmed 1 c9State 5 0 0 [7] c9Leaf (by decide)
    (by decide) (by decide) (by decide) (by decide)

/-- On a leaf with strictly increasing keys that contains the key,
InsertLeaf stops at the equal key with result false and writes nothing. -/
theorem InsertLeaf_duplicate (key : Int) (val : List Nat) :
    ∀ l : List (Int × List Nat), (l.map Prod.fst).Pairwise (· < ·) →
      key ∈ l.map Prod.fst → Page.InsertLeaf key val l = (false, l) := by
  intro l
  induction l with
  | nil => intro _ hm; simp at hm
  | cons e rest ih =>
    obtain ⟨a, b⟩ := e
    intro hs hm
    rw [List.map_cons, List.pairwise_cons] at hs
    by_cases ha : a = key
    · simp [Page.InsertLeaf, ha]
    · have hmem : key ∈ rest.map Prod.fst := by
        rcases List.mem_cons.mp hm with h | h
        · exact absurd h.symm ha
        · exact h
      have halt : a < key := hs.1 key hmem
      have hgt : ¬a > key := by omega
      simp [Page.InsertLeaf, ha, hgt, ih hs.2 hmem]

/-- C2 (amended): for every tree state whose search lands on a leaf with
strictly increasing keys that is not full and already contains key k,
Insert(k, v) returns false and leaves the whole state (store, pin table,
allocation counter and root) unchanged.  (As stated, the claim fails when
the leaf is full: the source splits before the duplicate check, see the
counterexample.) -/
theorem C2_duplicate_insert_unchanged
    (fuel : Nat) (st : Tree.TState) (key : Int) (val : List Nat)
    (lpid : Nat) (L : Page.BPlusTreePage)
    (hf : (Tree.FindLeafPage fuel st key).1 = some lpid)
    (hL : alookup st.store lpid = some L)
    (hfull : L.IsFull = false)
    (hsorted : (L.leafEntries.map Prod.fst).Pairwise (· < ·))
    (hmem : key ∈ L.leafEntries.map Prod.fst) :
    Tree.Insert fuel st key val = (false, st) := by
  have hpair : Tree.FindLeafPage fuel st key =
      (some lpid, (Tree.FindLeafPage fuel st key).2) := by
    rw [← hf]
  have hroot : ¬st.rootPageId = Page.InvalidPageID := by
    intro hr
    rw [Tree.FindLeafPage, if_pos hr] at hf
    simp at hf
  obtain ⟨hst1, -⟩ := Tree.FindLeafPage_spec hpair
  rw [Tree.Insert, if_neg hroot, hpair]
  simp only [hst1]
  simp only [hL, InsertLeaf_duplicate key val L.leafEntries hsorted hmem,
    hfull]
  have heta : { L with leafEntries := L.leafEntries } = L := rfl
  simp only [Bool.false_eq_true, if_false, heta, Tree.setNode,
    aupdate_self_of_lookup hL]
  rw [Tree.unpinPage_bumpPin st lpid]

/-- Witness for C2 at the one-leaf state: inserting the present key 5
into the non-full sorted root leaf returns false and changes nothing. -/
theorem C2_duplicate_insert_unchanged_witness :
    Tree.Insert 1 c9State 5 [9] = (false, c9State) :=
  C2_duplicate_insert_unchanged 1 c9State 5 [9] 0 c9Leaf (by decide)
    (by decide) (by decide) (by decide) (by decide)

/-- C6 (amended): when Remove deletes the last remaining key of a tree
whose root is a leaf, it returns true and sets the root page id to
invalid (the tree becomes empty), but it does not delete-page the old
root: the emptied root page remains allocated (the source returns from
the root case without calling DeletePage). -/
theorem C6_remove_last_root_key
    (fuel : Nat) (st : Tree.TState) (rpid : Nat) (key : Int) (v : List Nat)
    (L : Page.BPlusTreePage)
    (hroot : st.rootPageId = Int.ofNat rpid)
    (hL : alookup st.store rpid = some L)
    (hone : L.leafEntries = [(key, v)])
    (hleaf : L.pageType = Page.KindLeaf) :
    (Tree.Remove (fuel + 1) st key).1 = true ∧
    (Tree.Remove (fuel + 1) st key).2.rootPageId = Page.InvalidPageID ∧
    alookup (Tree.Remove (fuel + 1) st key).2.store rpid =
      some { L with leafEntries := [] } := by
  have hnv : ¬st.rootPageId = Page.InvalidPageID := by
    rw [hroot]
    intro h
    simp only [Page.InvalidPageID, Int.ofNat_eq_natCast] at h
    omega
  have hisleaf : L.IsLeaf = true := by
    simp [Page.BPlusTreePage.IsLeaf, hleaf]
  have htn : st.rootPageId.toNat = rpid := by
    rw [hroot]
    rfl
  have hfind : Tree.FindLeafPage (fuel + 1) st key =
      (some rpid, { st with pins := Tree.bumpPin st.pins rpid }) := by
    rw [Tree.FindLeafPage, if_neg hnv, htn]
    simp only [Tree.fetchPage_some hL]
    rw [Tree.findLeafLoop]
    simp only [hL, hisleaf, if_true]
  have hidx : Page.findKeyIdx key L.leafEntries = some 0 := by
    rw [hone]
    simp [Page.findKeyIdx]
  have hrm : Page.removeAt 0 L.leafEntries = [] := by
    rw [hone]
    rfl
  have hcount :
      Page.BPlusTreePage.GetCount { L with leafEntries := ([] : List (Int × List Nat)) } = 0 := by
    simp [Page.BPlusTreePage.GetCount, Page.BPlusTreePage.IsLeaf, hleaf]
  rw [Tree.Remove, if_neg hnv, hfind]
  simp only [hL, hidx, hrm, Tree.setNode, hroot, hcount, if_pos rfl,
    if_true, eq_self_iff_true]
  refine ⟨by trivial, ?_, ?_⟩
  · rw [(Tree.unpinPage_proj _ _).2.1]
  · rw [(Tree.unpinPage_proj _ _).1]
    exact alookup_aupdate_self hL _

/-- The root leaf of the state used to witness C6. -/
def c6wLeaf : Page.BPlusTreePage :=
  { Page.zeroPage with
    pageType := Page.KindLeaf
    leafEntries := [(3, Page.padVal [4])] }

/-- A one-leaf tree whose root page id is 7, holding only key 3. -/
def c6wState : Tree.TState :=
  { store := [(7, c6wLeaf)]
    pins := [(7, 0)]
    nextPageId := 8
    rootPageId := 7 }

/-- Witness for C6: removing the only key of the one-leaf tree returns
true, empties the tree, and leaves the emptied root page allocated. -/
theorem C6_remove_last_root_key_witness :
    (Tree.Remove 1 c6wState 3).1 = true ∧
    (Tree.Remove 1 c6wState 3).2.rootPageId = Page.InvalidPageID ∧
    alookup (Tree.Remove 1 c6wState 3).2.store 7 =
      some { c6wLeaf with leafEntries := [] } :=
  C6_remove_last_root_key 0 c6wState 7 3 (Page.padVal [4]) c6wLeaf
    (by decide) (by decide) (by decide) (by decide)

/-
  Freshness and field-preservation machinery for the split theorem C7.
-/

theorem mem_aupdate {κ α : Type} [DecidableEq κ]
    {l : List (κ × α)} {k : κ} {v : α} :
    ∀ e ∈ aupdate l k v, e ∈ l ∨ (e.1 = k ∧ ∃ w, (k, w) ∈ l) := by
  induction l with
  | nil => intro e he; simp [aupdate] at he
  | cons x rest ih =>
    obtain ⟨a, b⟩ := x
    intro e he
    by_cases ha : a = k
    · subst ha
      simp only [aupdate, if_pos rfl] at he
      rcases List.mem_cons.mp he with h | h
      · exact Or.inr ⟨by rw [h], b, List.mem_cons_self _ _⟩
      · exact Or.inl (List.mem_cons_of_mem _ h)
    · simp only [aupdate, ha, if_false] at he
      rcases List.mem_cons.mp he with h | h
      · exact Or.inl (h ▸ List.mem_cons_self _ _)
      · rcases ih e h with h2 | ⟨h2, w, hw⟩
        · exact Or.inl (List.mem_cons_of_mem _ h2)
        · exact Or.inr ⟨h2, w, List.mem_cons_of_mem _ hw⟩

theorem alookup_some_mem {κ α : Type} [DecidableEq κ]
    {l : List (κ × α)} {k : κ} {v : α} (h : alookup l k = some v) :
    (k, v) ∈ l := by
  induction l with
  | nil => simp [alookup] at h
  | cons x rest ih =>
    obtain ⟨a, b⟩ := x
    by_cases ha : a = k
    · subst ha
      simp only [alookup, if_true, eq_self_iff_true, Option.some.injEq] at h
      rw [← h]
      exact List.mem_cons_self _ _
    · simp only [alookup, ha, if_false] at h
      exact List.mem_cons_of_mem _ (ih h)

namespace Tree

/-- Every allocated page id is below the allocation counter.  This is the
freshness invariant justifying that NewPage installs a page id that does
not collide with any allocated page. -/
def idsBounded (st : TState) : Prop :=
  ∀ e ∈ st.store, e.1 < st.nextPageId

instance (st : TState) : Decidable (idsBounded st) := by
  unfold idsBounded
  infer_instance

/-- State transformations that leave the leaf view, the next pointer and
the kind of every already-allocated page unchanged (they may add pages,
rewrite parent ids and internal slots, and change pins). -/
def preservesLeafFields (s s2 : TState) : Prop :=
  ∀ pid n, alookup s.store pid = some n →
    ∃ n2, alookup s2.store pid = some n2 ∧
      n2.leafEntries = n.leafEntries ∧ n2.nextPageID = n.nextPageID ∧
      n2.pageType = n.pageType

theorem preserves_newPage (s : TState) :
    preservesLeafFields s (newPage s).2 :=
  fun _ n hl => ⟨n, alookup_append_some hl _, rfl, rfl, rfl⟩

theorem idsBounded_setNode {s : TState} (hB : idsBounded s)
    (pid : Nat) (v : Page.BPlusTreePage) : idsBounded (setNode s pid v) := by
  intro e he
  simp only [setNode] at he ⊢
  rcases mem_aupdate e he with h | ⟨h1, w, hw⟩
  · exact hB e h
  · rw [h1]
    exact hB (pid, w) hw

theorem idsBounded_setParentOf {s : TState} (hB : idsBounded s)
    (pid parent : Nat) : idsBounded (setParentOf s pid parent) := by
  unfold setParentOf
  cases alookup s.store pid with
  | none => exact hB
  | some n => exact idsBounded_setNode hB _ _

end Tree

theorem aerase_sublist {κ α : Type} [DecidableEq κ]
    (l : List (κ × α)) (k : κ) : List.Sublist (aerase l k) l := by
  induction l with
  | nil => exact List.Sublist.refl _
  | cons e rest ih =>
    obtain ⟨a, b⟩ := e
    by_cases he : a = k
    · simp only [aerase, he, if_pos]
      exact List.sublist_cons_self _ _
    · simp only [aerase, he, if_false]
      exact ih.cons₂ _

theorem alookup_aerase_self {κ α : Type} [DecidableEq κ]
    {l : List (κ × α)} (hnd : (l.map Prod.fst).Nodup) (k : κ) :
    alookup (aerase l k) k = none := by
  induction l with
  | nil => rfl
  | cons e rest ih =>
    obtain ⟨a, b⟩ := e
    rw [List.map_cons, List.nodup_cons] at hnd
    by_cases ha : a = k
    · subst ha
      have he : aerase ((a, b) :: rest) a = rest := by simp [aerase]
      rw [he]
      cases hl : alookup rest a with
      | none => rfl
      | some v =>
        exact absurd (List.mem_map_of_mem Prod.fst (alookup_some_mem hl))
          hnd.1
    · have he : aerase ((a, b) :: rest) k = (a, b) :: aerase rest k := by
        simp [aerase, ha]
      rw [he]
      have h2 : alookup ((a, b) :: aerase rest k) k =
          alookup (aerase rest k) k := by
        simp [alookup, ha]
      rw [h2]
      exact ih hnd.2

namespace Buf

theorem WritePage_lookup (d : DiskSim) (pid : Int) (data : List Nat) :
    alookup (d.WritePage pid data).contents pid = some data := by
  unfold DiskSim.WritePage
  cases h : alookup d.contents pid with
  | some v =>
    simp only [h]
    exact alookup_aupdate_self h data
  | none =>
    simp only [h]
    rw [alookup_append_none h]
    simp [alookup]

theorem WritePage_failing (d : DiskSim) (pid : Int) (data : List Nat) :
    (d.WritePage pid data).failing = d.failing := rfl

theorem frame_setFrame_self {b : BPM} {g : Nat} (hg : g < b.pages.length)
    (p : Page) : ((b.setFrame g p).frame g) = p := by
  simp only [BPM.frame, BPM.setFrame]
  rw [List.get?_set_eq_of_lt p hg]
  rfl

theorem frame_setFrame_ne (b : BPM) {g f : Nat} (h : g ≠ f) (p : Page) :
    ((b.setFrame g p).frame f) = b.frame f := by
  simp only [BPM.frame, BPM.setFrame]
  rw [List.get?_set_ne p b.pages h]

/-- C5's eviction half packaged over the states involved. -/
theorem findVictimFrame_evict (b : BPM) (f : Nat)
    (hfl : b.freeList = [])
    (hvic : b.replacer.lst.getLast? = some f)
    (hdirty : (b.frame f).isDirty = true)
    (hnd : (b.pageTable.map Prod.fst).Nodup) :
    (findVictimFrame b).1 = some f ∧
    alookup (findVictimFrame b).2.disk.contents (b.frame f).id =
      some ((b.frame f).data) ∧
    alookup (findVictimFrame b).2.pageTable (b.frame f).id = none := by
  unfold findVictimFrame
  rw [hfl]
  unfold LRUReplacer.Victim
  rw [hvic]
  have hfr : ∀ rep : LRUReplacer,
      (BPM.mk b.pages [] b.pageTable rep b.disk).frame f = b.frame f :=
    fun _ => rfl
  simp only [hfr, hdirty, eq_self_iff_true, if_true]
  refine ⟨by trivial, WritePage_lookup _ _ _, alookup_aerase_self hnd _⟩

end Buf

/-- C5: a dirty frame's payload reaches the disk before its page id
leaves the page table, and FlushPage on a resident page writes the
payload and clears the dirty bit.  In this functional model the two
effects of eviction happen in one step; the conjunction states the
claimed outcome: the post-state disk holds the victim's payload at its
page id while the page table no longer maps that id.  -/
theorem C5_dirty_writeback
    (b : Buf.BPM) (f : Nat) (pid : Int) (g : Nat)
    (hfl : b.freeList = [])
    (hvic : b.replacer.lst.getLast? = some f)
    (hdirty : (b.frame f).isDirty = true)
    (hnd : (b.pageTable.map Prod.fst).Nodup)
    (hres : alookup b.pageTable pid = some g)
    (hg : g < b.pages.length) :
    ((Buf.findVictimFrame b).1 = some f ∧
      alookup (Buf.findVictimFrame b).2.disk.contents (b.frame f).id =
        some ((b.frame f).data) ∧
      alookup (Buf.findVictimFrame b).2.pageTable (b.frame f).id = none) ∧
    ((Buf.FlushPage b pid).1 = true ∧
      alookup (Buf.FlushPage b pid).2.disk.contents pid =
        some ((b.frame g).data) ∧
      ((Buf.FlushPage b pid).2.frame g).isDirty = false) := by
  refine ⟨Buf.findVictimFrame_evict b f hfl hvic hdirty hnd, ?_⟩
  have hstep : Buf.FlushPage b pid =
      (true,
        ({ b with disk := b.disk.WritePage pid (b.frame g).data }).setFrame g
          { b.frame g with isDirty := false }) := by
    unfold Buf.FlushPage
    rw [hres]
  rw [hstep]
  refine ⟨rfl, Buf.WritePage_lookup _ _ _, ?_⟩
  have hg2 : g < (Buf.BPM.mk b.pages b.freeList b.pageTable b.replacer
      (b.disk.WritePage pid (b.frame g).data)).pages.length := hg
  rw [Buf.frame_setFrame_self hg2]

/-- The one-frame pool used to witness C5: frame 0 holds dirty page 10,
unpinned and evictable. -/
def c5Pool : Buf.BPM :=
  { pages := [{ id := 10, pinCount := 0, isDirty := true, data := Buf.zeroData }]
    freeList := []
    pageTable := [(10, 0)]
    replacer := { lst := [0], capacity := 1 }
    disk := { contents := [], nextPageID := 1, failing := [] } }

/-- Witness for C5 at the one-frame pool. -/
theorem C5_dirty_writeback_witness :
    ((Buf.findVictimFrame c5Pool).1 = some 0 ∧
      alookup (Buf.findVictimFrame c5Pool).2.disk.contents
        (c5Pool.frame 0).id = some ((c5Pool.frame 0).data) ∧
      alookup (Buf.findVictimFrame c5Pool).2.pageTable
        (c5Pool.frame 0).id = none) ∧
    ((Buf.FlushPage c5Pool 10).1 = true ∧
      alookup (Buf.FlushPage c5Pool 10).2.disk.contents 10 =
        some ((c5Pool.frame 0).data) ∧
      ((Buf.FlushPage c5Pool 10).2.frame 0).isDirty = false) :=
  C5_dirty_writeback c5Pool 0 10 0 (by decide) (by decide) (by decide)
    (by decide) (by decide) (by decide)

namespace Buf

/-- The limbo condition of C10: frame f is referenced by none of the free
list, the page table and the replacer, while its pin count is stuck at 1.
Such a frame can never again be chosen as a victim (victims come only
from the free list or the replacer), so the pool's usable capacity is
permanently reduced by one. -/
def limbo (b : BPM) (f : Nat) : Prop :=
  f ∉ b.freeList ∧ (∀ e ∈ b.pageTable, e.2 ≠ f) ∧
  f ∉ b.replacer.lst ∧ (b.frame f).pinCount = 1

instance (b : BPM) (f : Nat) : Decidable (limbo b f) := by
  unfold limbo
  infer_instance

theorem pin_setFrame_keep (b : BPM) (i f : Nat) (p : Page)
    (hp : p.pinCount = (b.frame i).pinCount) :
    ((b.setFrame i p).frame f).pinCount = (b.frame f).pinCount := by
  by_cases hif : i = f
  · subst hif
    by_cases hl : i < b.pages.length
    · rw [frame_setFrame_self hl, hp]
    · have h1 : (b.setFrame i p).frame i = emptyPage := by
        simp only [BPM.frame, BPM.setFrame]
        rw [List.get?_len_le]
        · rfl
        · rw [List.length_set]
          omega
      have h2 : b.frame i = emptyPage := by
        simp only [BPM.frame]
        rw [List.get?_len_le (by omega)]
        rfl
      rw [h1, h2]
  · rw [frame_setFrame_ne b hif p]

theorem frame_setFrame_keep_of_ne (b : BPM) {i f : Nat} (h : i ≠ f)
    (p : Page) : ((b.setFrame i p).frame f).pinCount =
      (b.frame f).pinCount := by
  rw [frame_setFrame_ne b h p]

/-- Shape of victim selection from the free list. -/
theorem findVictim_cons (b : BPM) (x : Nat) (rest : List Nat)
    (hfree : b.freeList = x :: rest) :
    findVictimFrame b =
      (some x, BPM.mk b.pages rest b.pageTable b.replacer b.disk) := by
  unfold findVictimFrame
  rw [hfree]

/-- Shape of victim selection when everything is pinned. -/
theorem findVictim_none (b : BPM) (hfree : b.freeList = [])
    (hlast : b.replacer.lst.getLast? = none) :
    findVictimFrame b = (none, b) := by
  unfold findVictimFrame
  rw [hfree]
  unfold LRUReplacer.Victim
  rw [hlast]

/-- Shape of victim selection by LRU eviction. -/
theorem findVictim_evict (b : BPM) (v : Nat) (hfree : b.freeList = [])
    (hlast : b.replacer.lst.getLast? = some v) :
    findVictimFrame b =
      (some v, BPM.mk b.pages []
        (aerase b.pageTable (b.frame v).id)
        (LRUReplacer.mk b.replacer.lst.dropLast b.replacer.capacity)
        (if (b.frame v).isDirty = true
          then b.disk.WritePage (b.frame v).id (b.frame v).data
          else b.disk)) := by
  unfold findVictimFrame
  rw [hfree]
  unfold LRUReplacer.Victim
  rw [hlast]
  have hbv : ∀ rep : LRUReplacer,
      (BPM.mk b.pages [] b.pageTable rep b.disk).frame v = b.frame v :=
    fun _ => rfl
  by_cases hd : (b.frame v).isDirty = true
  · simp only [hbv, hd, eq_self_iff_true, if_true]
  · simp only [hbv, hd, Bool.false_eq_true, if_false]

/-- Victim selection never returns a limbo frame, and leaves the limbo
condition intact. -/
theorem limbo_findVictim {b : BPM} {f : Nat} (h : limbo b f) :
    (∀ v, (findVictimFrame b).1 = some v → v ≠ f) ∧
    limbo (findVictimFrame b).2 f := by
  obtain ⟨hfl, htbl, hrep, hpin⟩ := h
  cases hfree : b.freeList with
  | cons x rest =>
    rw [findVictim_cons b x rest hfree]
    have hx : x ≠ f := by
      intro hxe
      exact hfl (hfree ▸ hxe ▸ List.mem_cons_self _ _)
    constructor
    · intro v hv
      have := Option.some.inj hv
      rw [← this]
      exact hx
    · refine ⟨?_, htbl, hrep, hpin⟩
      intro hmem
      exact hfl (hfree ▸ List.mem_cons_of_mem _ hmem)
  | nil =>
    cases hlast : b.replacer.lst.getLast? with
    | none =>
      rw [findVictim_none b hfree hlast]
      refine ⟨?_, ?_⟩
      · intro v hv
        simp at hv
      · exact ⟨hfl, htbl, hrep, hpin⟩
    | some v =>
      rw [findVictim_evict b v hfree hlast]
      have hv : v ≠ f := by
        intro hve
        exact hrep (hve ▸ List.mem_of_mem_getLast? hlast)
      constructor
      · intro w hw
        have := Option.some.inj hw
        rw [← this]
        exact hv
      · refine ⟨List.not_mem_nil f, ?_, ?_, hpin⟩
        · intro e he
          exact htbl e ((aerase_sublist _ _).subset he)
        · intro hmem
          exact hrep ((List.dropLast_sublist _).subset hmem)

theorem mem_Unpin {r : LRUReplacer} {f g : Nat} (h1 : f ∉ r.lst)
    (h2 : f ≠ g) : f ∉ (r.Unpin g).lst := by
  unfold LRUReplacer.Unpin
  by_cases hm : g ∈ r.lst
  · rw [if_pos hm]
    exact h1
  · rw [if_neg hm]
    by_cases hc : r.capacity ≤ r.lst.length
    · rw [if_pos hc]
      exact h1
    · rw [if_neg hc]
      intro hmem
      have hx : f ∈ g :: r.lst := hmem
      rcases List.mem_cons.mp hx with h3 | h4
      · exact h2 h3
      · exact h1 h4

/-- A pin-count bump on a non-limbo frame (the hit path of FetchPage)
leaves a limbo frame in limbo. -/
theorem limbo_bumpPin (b : BPM) (g f : Nat) (hgf : g ≠ f) (h : limbo b f)
    (p : Page) :
    limbo (({ b with replacer := b.replacer.Pin g }).setFrame g p) f := by
  obtain ⟨hfl, htbl, hrep, hpin⟩ := h
  refine ⟨hfl, htbl, ?_, ?_⟩
  · intro hm
    have hm2 : f ∈ b.replacer.lst.erase g := hm
    exact hrep (List.mem_of_mem_erase hm2)
  · have e := frame_setFrame_ne ({ b with replacer := b.replacer.Pin g })
      hgf p
    rw [e]
    exact hpin

/-- Installing a page into a non-limbo victim frame (the miss path of
FetchPage) leaves a limbo frame in limbo. -/
theorem limbo_installFrame {b1 : BPM} {f : Nat} (pid : Int) (v : Nat)
    (hvf : v ≠ f) (h : limbo b1 f) : limbo (installFrame b1 pid v).2 f := by
  obtain ⟨hfl, htbl, hrep, hpin⟩ := h
  unfold installFrame
  cases hr : b1.disk.ReadPage pid with
  | none =>
    refine ⟨hfl, htbl, hrep, ?_⟩
    have e := frame_setFrame_ne b1 hvf
      { b1.frame v with id := pid, pinCount := 1, isDirty := false }
    show ((b1.setFrame v
      { b1.frame v with id := pid, pinCount := 1, isDirty := false
        }).frame f).pinCount = 1
    rw [e]
    exact hpin
  | some data =>
    refine ⟨hfl, ?_, ?_, ?_⟩
    · intro e he
      have he2 : e ∈ b1.pageTable ++ [(pid, v)] := he
      rcases List.mem_append.mp he2 with h1 | h2
      · exact htbl e h1
      · rw [List.mem_singleton.mp h2]
        exact hvf
    · intro hm
      have hm2 : f ∈ b1.replacer.lst.erase v := hm
      exact hrep (List.mem_of_mem_erase hm2)
    · have e1 := frame_setFrame_ne b1 hvf
        { b1.frame v with id := pid, pinCount := 1, isDirty := false }
      have e2 := frame_setFrame_ne
        (b1.setFrame v
          { b1.frame v with id := pid, pinCount := 1, isDirty := false })
        hvf
        { (b1.setFrame v
            { b1.frame v with id := pid, pinCount := 1, isDirty := false
              }).frame v with data := data }
      show (((b1.setFrame v
        { b1.frame v with id := pid, pinCount := 1, isDirty := false
          }).setFrame v
        { (b1.setFrame v
            { b1.frame v with id := pid, pinCount := 1, isDirty := false
              }).frame v with data := data }).frame f).pinCount = 1
      rw [e2, e1]
      exact hpin

/-- Installing a freshly allocated page into a non-limbo victim frame
(the tail of NewPage) leaves a limbo frame in limbo. -/
theorem limbo_installNewFrame {b1 : BPM} {f : Nat} (v : Nat)
    (hvf : v ≠ f) (h : limbo b1 f) : limbo (installNewFrame b1 v).2 f := by
  obtain ⟨hfl, htbl, hrep, hpin⟩ := h
  unfold installNewFrame
  refine ⟨hfl, ?_, ?_, ?_⟩
  · intro e he
    have he2 : e ∈ b1.pageTable ++ [(b1.disk.AllocatePage.1, v)] := he
    rcases List.mem_append.mp he2 with h1 | h2
    · exact htbl e h1
    · rw [List.mem_singleton.mp h2]
      exact hvf
  · intro hm
    have hm2 : f ∈ b1.replacer.lst.erase v := hm
    exact hrep (List.mem_of_mem_erase hm2)
  · have e1 := frame_setFrame_ne ({ b1 with disk := b1.disk.AllocatePage.2 })
      hvf
      { id := b1.disk.AllocatePage.1, pinCount := 1, isDirty := false,
        data := zeroData }
    show ((({ b1 with disk := b1.disk.AllocatePage.2 } : BPM).setFrame v
      { id := b1.disk.AllocatePage.1, pinCount := 1, isDirty := false,
        data := zeroData }).frame f).pinCount = 1
    rw [e1]
    exact hpin

/-- One step of the FlushAllPages fold leaves a limbo frame in limbo: the
write-back touches only the disk and the frame's dirty bit. -/
theorem limbo_flushStep (acc : BPM) (i : Nat) {f : Nat} (h : limbo acc f) :
    limbo (if ((acc.frame i).id ≠ Page.InvalidPageID &&
        (acc.frame i).isDirty) = true
      then (BPM.mk acc.pages acc.freeList acc.pageTable acc.replacer
          (acc.disk.WritePage (acc.frame i).id (acc.frame i).data)).setFrame i
        { acc.frame i with isDirty := false }
      else acc) f := by
  obtain ⟨hfl, htbl, hrep, hpin⟩ := h
  by_cases hc : ((acc.frame i).id ≠ Page.InvalidPageID &&
      (acc.frame i).isDirty) = true
  · rw [if_pos hc]
    refine ⟨hfl, htbl, hrep, ?_⟩
    rw [pin_setFrame_keep (BPM.mk acc.pages acc.freeList acc.pageTable
      acc.replacer (acc.disk.WritePage (acc.frame i).id (acc.frame i).data))
      i f { acc.frame i with isDirty := false } rfl]
    exact hpin
  · rw [if_neg hc]
    exact ⟨hfl, htbl, hrep, hpin⟩

/-- The FlushAllPages fold leaves a limbo frame in limbo. -/
theorem limbo_flushFold {f : Nat} (idxs : List Nat) :
    ∀ acc : BPM, limbo acc f →
      limbo (idxs.foldl
        (fun acc2 g =>
          let p := acc2.frame g
          if p.id ≠ Page.InvalidPageID && p.isDirty then
            let acc3 := { acc2 with disk := acc2.disk.WritePage p.id p.data }
            acc3.setFrame g { p with isDirty := false }
          else acc2)
        acc) f := by
  induction idxs with
  | nil =>
    intro acc h
    exact h
  | cons i rest ih =>
    intro acc h
    rw [List.foldl_cons]
    exact ih _ (limbo_flushStep acc i h)

/-- The tail of DeletePage on a non-limbo resident frame leaves a limbo
frame in limbo. -/
theorem limbo_deleteStep (b : BPM) (pid : Int) (g : Nat) {f : Nat}
    (hgf : g ≠ f) (h : limbo b f) :
    limbo ((let p := b.frame g
      let b1 := { b with pageTable := aerase b.pageTable pid }
      let b2 := { b1 with replacer := b1.replacer.Pin g }
      let b3 := { b2 with freeList := b2.freeList ++ [g] }
      ((true, b3.setFrame g
        (Page.mk Page.InvalidPageID 0 false p.data)) : Bool × BPM)).2) f := by
  obtain ⟨hfl, htbl, hrep, hpin⟩ := h
  refine ⟨?_, ?_, ?_, ?_⟩
  · intro hm
    have hm2 : f ∈ b.freeList ++ [g] := hm
    rcases List.mem_append.mp hm2 with h1 | h2
    · exact hfl h1
    · exact hgf (List.mem_singleton.mp h2).symm
  · intro e he
    have he2 : e ∈ aerase b.pageTable pid := he
    exact htbl e ((aerase_sublist _ _).subset he2)
  · intro hm
    have hm2 : f ∈ b.replacer.lst.erase g := hm
    exact hrep (List.mem_of_mem_erase hm2)
  · set B3 : BPM := BPM.mk b.pages (b.freeList ++ [g])
      (aerase b.pageTable pid) (b.replacer.Pin g) b.disk with hB3
    set P0 : Page := Page.mk Page.InvalidPageID 0 false (b.frame g).data
      with hP0
    have e1 := frame_setFrame_ne B3 hgf P0
    show ((B3.setFrame g P0).frame f).pinCount = 1
    rw [e1]
    exact hpin

/-- Every public pool operation leaves a limbo frame in limbo: no call a
client can make frees the frame, returns it to the replacer or the free
list, or drops its pin count. -/
theorem limbo_applyOp {f : Nat} (b : BPM) (op : PoolOp) (h : limbo b f) :
    limbo (applyOp b op) f := by
  obtain ⟨hfl, htbl, hrep, hpin⟩ := h
  cases op with
  | fetch pid =>
    show limbo (FetchPage b pid).2 f
    unfold FetchPage
    cases ht : alookup b.pageTable pid with
    | some g =>
      have hgf : g ≠ f := htbl (pid, g) (alookup_some_mem ht)
      exact limbo_bumpPin b g f hgf ⟨hfl, htbl, hrep, hpin⟩ _
    | none =>
      have hlv := limbo_findVictim ⟨hfl, htbl, hrep, hpin⟩
      rcases hfv : findVictimFrame b with ⟨o, b1⟩
      rw [hfv] at hlv
      cases o with
      | none => exact hlv.2
      | some v => exact limbo_installFrame pid v (hlv.1 v rfl) hlv.2
  | unpin pid d =>
    show limbo (UnpinPage b pid d).2 f
    unfold UnpinPage
    cases ht : alookup b.pageTable pid with
    | none => exact ⟨hfl, htbl, hrep, hpin⟩
    | some g =>
      have hgf : g ≠ f := htbl (pid, g) (alookup_some_mem ht)
      cases hp : (b.frame g).pinCount with
      | zero =>
        show limbo ((match (b.frame g).pinCount with
          | 0 => ((false, b) : Bool × BPM)
          | Nat.succ n =>
            let p1 := Page.mk (b.frame g).id n
              ((b.frame g).isDirty || d) (b.frame g).data
            let b1 := b.setFrame g p1
            if n = 0 then (true, { b1 with replacer := b1.replacer.Unpin g })
            else (true, b1)).2) f
        rw [hp]
        exact ⟨hfl, htbl, hrep, hpin⟩
      | succ n =>
        show limbo ((match (b.frame g).pinCount with
          | 0 => ((false, b) : Bool × BPM)
          | Nat.succ n =>
            let p1 := Page.mk (b.frame g).id n
              ((b.frame g).isDirty || d) (b.frame g).data
            let b1 := b.setFrame g p1
            if n = 0 then (true, { b1 with replacer := b1.replacer.Unpin g })
            else (true, b1)).2) f
        rw [hp]
        set P1 : Page := Page.mk (b.frame g).id n
          ((b.frame g).isDirty || d) (b.frame g).data with hP1
        show limbo ((if n = 0
          then ((true, BPM.mk (b.setFrame g P1).pages
            (b.setFrame g P1).freeList (b.setFrame g P1).pageTable
            ((b.setFrame g P1).replacer.Unpin g)
            (b.setFrame g P1).disk) : Bool × BPM)
          else (true, b.setFrame g P1)).2) f
        by_cases hz : n = 0
        · rw [if_pos hz]
          refine ⟨hfl, htbl, ?_, ?_⟩
          · intro hm
            have hm2 : f ∈ (LRUReplacer.Unpin b.replacer g).lst := hm
            exact absurd hm2 (mem_Unpin hrep (fun he => hgf he.symm))
          · have e := frame_setFrame_ne b hgf P1
            show ((b.setFrame g P1).frame f).pinCount = 1
            rw [e]
            exact hpin
        · rw [if_neg hz]
          refine ⟨hfl, htbl, hrep, ?_⟩
          have e := frame_setFrame_ne b hgf P1
          show ((b.setFrame g P1).frame f).pinCount = 1
          rw [e]
          exact hpin
  | newP =>
    show limbo (NewPage b).2 f
    unfold NewPage
    have hlv := limbo_findVictim ⟨hfl, htbl, hrep, hpin⟩
    rcases hfv : findVictimFrame b with ⟨o, b1⟩
    rw [hfv] at hlv
    cases o with
    | none => exact hlv.2
    | some v => exact limbo_installNewFrame v (hlv.1 v rfl) hlv.2
  | flush pid =>
    show limbo (FlushPage b pid).2 f
    unfold FlushPage
    cases ht : alookup b.pageTable pid with
    | none => exact ⟨hfl, htbl, hrep, hpin⟩
    | some g =>
      have hgf : g ≠ f := htbl (pid, g) (alookup_some_mem ht)
      refine ⟨hfl, htbl, hrep, ?_⟩
      set B1 : BPM := BPM.mk b.pages b.freeList b.pageTable b.replacer
        (b.disk.WritePage pid (b.frame g).data) with hB1
      set P1 : Page := Page.mk (b.frame g).id (b.frame g).pinCount false
        (b.frame g).data with hP1
      have e := frame_setFrame_ne B1 hgf P1
      show ((B1.setFrame g P1).frame f).pinCount = 1
      rw [e]
      exact hpin
  | flushAll =>
    show limbo (FlushAllPages b) f
    unfold FlushAllPages
    exact limbo_flushFold _ b ⟨hfl, htbl, hrep, hpin⟩
  | delete pid =>
    show limbo (DeletePage b pid).2 f
    unfold DeletePage
    cases ht : alookup b.pageTable pid with
    | none => exact ⟨hfl, htbl, hrep, hpin⟩
    | some g =>
      have hgf : g ≠ f := htbl (pid, g) (alookup_some_mem ht)
      show limbo ((if 0 < (b.frame g).pinCount
        then ((false, b) : Bool × BPM)
        else (let b1 := { b with pageTable := aerase b.pageTable pid }
          let b2 := { b1 with replacer := b1.replacer.Pin g }
          let b3 := { b2 with freeList := b2.freeList ++ [g] }
          ((true, b3.setFrame g
            (Page.mk Page.InvalidPageID 0 false (b.frame g).data))
            : Bool × BPM))).2) f
      by_cases hpc : 0 < (b.frame g).pinCount
      · rw [if_pos hpc]
        exact ⟨hfl, htbl, hrep, hpin⟩
      · rw [if_neg hpc]
        exact limbo_deleteStep b pid g hgf ⟨hfl, htbl, hrep, hpin⟩

end Buf

/-- C10: when FetchPage misses, victim selection yields frame f, and the
disk read of the requested page fails, FetchPage returns none and leaves f
in limbo: f is in none of the free list, the page table or the replacer,
its pin count is stuck at 1, and every further public pool operation
preserves that condition, while victim selection never picks a limbo
frame, so the frame is never reusable and the pool's usable capacity
permanently drops by one.  The hypotheses after the read-failure one state
that f is not referenced elsewhere in the post-victim-selection state,
which FetchPage's caller-visible precondition (a consistent pool)
guarantees. -/
theorem C10_failed_fetch_strands_frame
    (b : Buf.BPM) (pid : Int) (f : Nat)
    (hmiss : alookup b.pageTable pid = none)
    (hvic : (Buf.findVictimFrame b).1 = some f)
    (hfail : pid ∈ (Buf.findVictimFrame b).2.disk.failing)
    (hflen : f < (Buf.findVictimFrame b).2.pages.length)
    (hfl1 : f ∉ (Buf.findVictimFrame b).2.freeList)
    (htbl1 : ∀ e ∈ (Buf.findVictimFrame b).2.pageTable, e.2 ≠ f)
    (hrep1 : f ∉ (Buf.findVictimFrame b).2.replacer.lst) :
    (Buf.FetchPage b pid).1 = none ∧
    Buf.limbo (Buf.FetchPage b pid).2 f ∧
    (∀ (b2 : Buf.BPM) (op : Buf.PoolOp),
      Buf.limbo b2 f → Buf.limbo (Buf.applyOp b2 op) f) ∧
    (∀ b2 : Buf.BPM, Buf.limbo b2 f →
      ∀ v, (Buf.findVictimFrame b2).1 = some v → v ≠ f) := by
  have hpair : Buf.findVictimFrame b =
      (some f, (Buf.findVictimFrame b).2) := by
    rw [← hvic]
  have hr : (Buf.findVictimFrame b).2.disk.ReadPage pid = none := by
    unfold Buf.DiskSim.ReadPage
    rw [if_pos hfail]
  refine ⟨?_, ?_, ?_, ?_⟩
  · unfold Buf.FetchPage
    rw [hmiss, hpair]
    show (Buf.installFrame (Buf.findVictimFrame b).2 pid f).1 = none
    unfold Buf.installFrame
    rw [hr]
  · unfold Buf.FetchPage
    rw [hmiss, hpair]
    show Buf.limbo (Buf.installFrame (Buf.findVictimFrame b).2 pid f).2 f
    unfold Buf.installFrame
    rw [hr]
    refine ⟨hfl1, htbl1, hrep1, ?_⟩
    set P1 : Buf.Page := Buf.Page.mk pid 1 false
      ((Buf.findVictimFrame b).2.frame f).data with hP1
    show (((Buf.findVictimFrame b).2.setFrame f P1).frame f).pinCount = 1
    rw [Buf.frame_setFrame_self hflen]
  · intro b2 op hl
    exact Buf.limbo_applyOp b2 op hl
  · intro b2 hl v hv
    exact (Buf.limbo_findVictim hl).1 v hv

/-- The two-frame pool used to witness C10: frame 0 is free, the page
table is empty, and reading page 5 from disk fails. -/
def c10Pool : Buf.BPM :=
  { pages := [Buf.emptyPage, Buf.emptyPage]
    freeList := [0]
    pageTable := []
    replacer := { lst := [], capacity := 2 }
    disk := { contents := [], nextPageID := 0, failing := [5] } }

/-- Witness for C10: fetching failing page 5 on the two-frame pool returns
none, strands frame 0 in limbo, and a further pool operation (NewPage)
leaves it in limbo. -/
theorem C10_failed_fetch_strands_frame_witness :
    (Buf.FetchPage c10Pool 5).1 = none ∧
    Buf.limbo (Buf.FetchPage c10Pool 5).2 0 ∧
    Buf.limbo (Buf.applyOp (Buf.FetchPage c10Pool 5).2 Buf.PoolOp.newP) 0 :=
  have h := C10_failed_fetch_strands_frame c10Pool 5 0 (by decide)
    (by decide) (by decide) (by decide) (by decide) (by decide) (by decide)
  ⟨h.1, h.2.1, h.2.2.1 _ _ h.2.1⟩

end MiniDB
